import Mathlib

/-!
Verification of the boundary trading strategy engine
(`trading_strategy.py`, class `TradingStrategy`, method `run_backtest`).

The engine is shallowly embedded: Python floats are modelled as exact
rationals (`ℚ`), Python's `round(x, 2)` as decimal rounding half to even,
the per-bar loop body as a pure step function on an explicit run state,
and the whole backtest as a fold of that step over the list of input bars.
Calendar dates and raw timestamps are opaque to the engine (it only
compares dates for equality and records timestamps in signals), so both
are modelled as natural numbers.
-/

/-- Rounding half to even of a rational to an integer (the tie-breaking
rule of Python's builtin `round`). -/
def roundHalfEven (q : ℚ) : ℤ :=
  let f := ⌊q⌋
  let r := q - f
  if r < 1/2 then f
  else if 1/2 < r then f + 1
  else if Even f then f else f + 1

/-- Python's `round(q, 2)`: round to two decimal places, half to even. -/
def round2 (q : ℚ) : ℚ := (roundHalfEven (q * 100) : ℚ) / 100

/-- Strategy parameters (`class Config` of the source). `MAX_POSITION_RATIO`
is called `max_position_fraction` here. -/
structure Config where
  initial_capital : ℚ
  build_levels : ℕ
  profit_levels : ℕ
  max_position_fraction : ℚ
  buy_drop : ℚ
  sell_rise : ℚ
  level_spread : ℚ
deriving DecidableEq

/-- The parameter values of the source's `Config` class. -/
def defaultConfig : Config :=
  { initial_capital := 20000
  , build_levels := 5
  , profit_levels := 5
  , max_position_fraction := 1/5
  , buy_drop := 1/100
  , sell_rise := 1/1000
  , level_spread := 1/1000 }

/-- One OHLC input bar. `time` stands for the raw timestamp string,
`date` for its calendar-date part and `hour` for the hour of day derived
from it; the engine treats the timestamp and the date as opaque. -/
structure Bar where
  time : ℕ
  date : ℕ
  hour : ℕ
  open_price : ℚ
  close : ℚ
  high : ℚ
  low : ℚ
deriving DecidableEq

instance : Inhabited Bar := ⟨⟨0, 0, 0, 0, 0, 0, 0⟩⟩

/-- A bar with positive prices (the well-formedness precondition). -/
def wellFormedBar (b : Bar) : Prop :=
  0 < b.open_price ∧ 0 < b.close ∧ 0 < b.high ∧ 0 < b.low

/-- Buy/sell marker of a trade signal. -/
inductive Side where
  | buy : Side
  | sell : Side
deriving DecidableEq

/-- One emitted trade signal (`class TradeSignal` of the source). -/
structure TradeSignal where
  time : ℕ
  signal_type : Side
  price : ℚ
  quantity : ℚ
  level : ℕ
deriving DecidableEq

/-- The open-position record built on entry (the `self.position` dict). -/
structure Position where
  buy_price : ℚ
  buy_level : ℕ
  qty : ℚ
  date : ℕ
  profit_prices : List ℚ
  entry_bar : ℕ
  entry_hour : ℕ
deriving DecidableEq

/-- The mutable run state of `run_backtest`: the strategy attributes
(`capital`, `daily_capital`, `position`, `trade_log`), the loop-local
`current_date`, and the history needed by the moving average (the closes
of the bars already processed, oldest first, together with the current
bar index `i`). -/
structure StratState where
  capital : ℚ
  daily_capital : ℚ
  position : Option Position
  trade_log : List TradeSignal
  current_date : Option ℕ
  closes : List ℚ
  bar_index : ℕ
deriving DecidableEq

/-- The state at the start of a run. -/
def initState (cfg : Config) : StratState :=
  { capital := cfg.initial_capital
  , daily_capital := cfg.initial_capital
  , position := none
  , trade_log := []
  , current_date := none
  , closes := []
  , bar_index := 0 }

/-- Daily-capital update at the top of the loop body: on a calendar-date
change, `daily_capital` becomes initial capital plus half the cumulative
profit, and `current_date` is updated. -/
def dailyUpdate (cfg : Config) (s : StratState) (b : Bar) : StratState :=
  if s.current_date ≠ some b.date then
    { s with daily_capital := cfg.initial_capital + (s.capital - cfg.initial_capital) * (1/2)
           , current_date := some b.date }
  else s

/-- `ma14` of the current bar: the mean of the 14 closes strictly before
the current bar if at least 14 bars were already processed
(`df.iloc[i-14:i]['收盘'].mean()`), and the current bar's own close
otherwise. -/
def maCompute (s : StratState) (b : Bar) : ℚ :=
  if 14 ≤ s.bar_index then (((s.closes.drop (s.bar_index - 14)).take 14).sum) / 14
  else b.close

/-- The build (entry) price ladder computed from `ma14`. -/
def buildPrices (cfg : Config) (ma : ℚ) : List ℚ :=
  (List.range cfg.build_levels).map
    (fun j : ℕ => round2 (ma * (1 - cfg.buy_drop) * (1 - (j : ℚ) * cfg.level_spread)))

/-- The profit (exit) price ladder computed from `ma14`. -/
def profitPrices (cfg : Config) (ma : ℚ) : List ℚ :=
  (List.range cfg.profit_levels).map
    (fun j : ℕ => round2 (ma * (1 + cfg.sell_rise) * (1 + (j : ℚ) * cfg.level_spread)))

/-- The buy-level scan (the `for level_idx, build_price in enumerate(...)`
loop): at the first level whose price is at least the bar's low, the fill
price, the sizing and the capital check are evaluated; if the check
passes, capital is debited, the position is created and a buy signal is
appended, and the scan stops; if the check fails the scan continues with
the next (lower) level. `snap` is the profit ladder snapshotted into the
position, `i` the current bar index and `k` the level index of the head
of the remaining ladder. -/
def buyScan (cfg : Config) (s : StratState) (b : Bar) (snap : List ℚ) (i : ℕ) :
    ℕ → List ℚ → StratState
  | _, [] => s
  | k, bp :: rest =>
    if b.low ≤ bp then
      let buy_price := min bp b.low
      let max_capital := min s.daily_capital cfg.initial_capital
      let max_per_level := max_capital * cfg.max_position_fraction
      let qty := max_per_level / buy_price
      if qty * buy_price ≤ s.capital then
        { s with capital := s.capital - qty * buy_price
               , position := some { buy_price := buy_price
                                  , buy_level := k + 1
                                  , qty := qty
                                  , date := b.date
                                  , profit_prices := snap
                                  , entry_bar := i
                                  , entry_hour := b.hour }
               , trade_log := s.trade_log ++ [{ time := b.time
                                              , signal_type := Side.buy
                                              , price := buy_price
                                              , quantity := qty
                                              , level := k + 1 }] }
      else buyScan cfg s b snap i (k + 1) rest
    else buyScan cfg s b snap i (k + 1) rest

/-- The buy logic of one bar: only with no open position and in the early
trading hours (`hour <= 2`) is the build ladder scanned. -/
def buyPhase (cfg : Config) (s : StratState) (b : Bar) (ma : ℚ) : StratState :=
  if s.position = none ∧ b.hour ≤ 2 then
    buyScan cfg s b (profitPrices cfg ma) s.bar_index 0 (buildPrices cfg ma)
  else s

/-- The profit-level scan of the sell logic (the
`for level_idx, profit_price in enumerate(profit_prices)` loop over the
position's frozen ladder): the first level whose price is at most the
bar's high closes the position at that level's price. -/
def sellScan (s : StratState) (b : Bar) (p : Position) : ℕ → List ℚ → StratState
  | _, [] => s
  | k, pp :: rest =>
    if b.high ≥ pp then
      { s with capital := s.capital + p.qty * pp
             , trade_log := s.trade_log ++ [{ time := b.time
                                            , signal_type := Side.sell
                                            , price := pp
                                            , quantity := p.qty
                                            , level := k + 1 }]
             , position := none }
    else sellScan s b p (k + 1) rest

/-- The sell logic of one bar: evaluated only with an open position whose
entry bar index is strictly below the current bar index; first the frozen
profit ladder is scanned, then — if the position is still open — the
force-close rule fires in hours 4..21 whenever the hypothetical profit at
the bar's close is strictly positive. -/
def sellPhase (cfg : Config) (s : StratState) (b : Bar) : StratState :=
  match s.position with
  | none => s
  | some p =>
    if p.entry_bar < s.bar_index then
      let s2 := sellScan s b p 0 p.profit_prices
      match s2.position with
      | none => s2
      | some p2 =>
        if 4 ≤ b.hour ∧ b.hour < 22 then
          if 0 < (b.close - p.buy_price) / p.buy_price * 100 then
            { s2 with capital := s2.capital + b.close * p2.qty
                    , trade_log := s2.trade_log ++ [{ time := b.time
                                                    , signal_type := Side.sell
                                                    , price := b.close
                                                    , quantity := p2.qty
                                                    , level := 5 }]
                    , position := none }
          else s2
        else s2
    else s

/-- Bookkeeping at the end of one bar: append the bar's close to the
history and advance the bar index. -/
def finishBar (s : StratState) (b : Bar) : StratState :=
  { s with closes := s.closes ++ [b.close], bar_index := s.bar_index + 1 }

/-- Evaluation of one bar (the body of the `for i in range(len(df))`
loop): daily-capital update, moving average, ladders, buy logic, sell
logic, bookkeeping. -/
def stepBar (cfg : Config) (s : StratState) (b : Bar) : StratState :=
  let s0 := dailyUpdate cfg s b
  let ma := maCompute s0 b
  let s1 := buyPhase cfg s0 b ma
  let s2 := sellPhase cfg s1 b
  finishBar s2 b

/-- The whole backtest: fold the per-bar step over the bar stream from
the initial state. -/
def runBacktest (cfg : Config) (bars : List Bar) : StratState :=
  bars.foldl (stepBar cfg) (initState cfg)

/-- The run state after the first `i` bars of the stream. -/
def prefState (cfg : Config) (bars : List Bar) (i : ℕ) : StratState :=
  runBacktest cfg (bars.take i)

/-- The bar at index `i` of the stream (an arbitrary default out of
range). -/
def barAt (bars : List Bar) (i : ℕ) : Bar := bars.getD i default

/-- The quantity the sizing rule computes on the scanned bar `b` when a
build level is touched: the fill price is then the bar's low, so the
quantity is the per-level budget divided by the low. -/
def qtyOf (cfg : Config) (s : StratState) (b : Bar) : ℚ :=
  min s.daily_capital cfg.initial_capital * cfg.max_position_fraction / b.low

/-- The capital cost `qty * buy_price` of an entry on bar `b`; it does
not depend on which level was matched. -/
def costOf (cfg : Config) (s : StratState) (b : Bar) : ℚ :=
  qtyOf cfg s b * b.low

/-- First build level (index and price) whose price is at least `low`,
starting the index count at `k`. -/
def firstBuildHitAux (low : ℚ) : ℕ → List ℚ → Option (ℕ × ℚ)
  | _, [] => none
  | k, bp :: rest => if low ≤ bp then some (k, bp) else firstBuildHitAux low (k + 1) rest

/-- First build level of the ladder whose price is at least `low`. -/
def firstBuildHit (low : ℚ) (prices : List ℚ) : Option (ℕ × ℚ) :=
  firstBuildHitAux low 0 prices

/-- First profit level (index and price) with price at most `high`,
starting the index count at `k`. -/
def firstProfitHitAux (high : ℚ) : ℕ → List ℚ → Option (ℕ × ℚ)
  | _, [] => none
  | k, pp :: rest => if high ≥ pp then some (k, pp) else firstProfitHitAux high (k + 1) rest

/-- First profit level of the ladder whose price is at most `high`. -/
def firstProfitHit (high : ℚ) (prices : List ℚ) : Option (ℕ × ℚ) :=
  firstProfitHitAux high 0 prices

/-- The state produced by a successful entry at level index `k` with
level price `bp` (the then-branch of the capital check in the buy
scan). -/
def entryState (cfg : Config) (s : StratState) (b : Bar) (snap : List ℚ) (i k : ℕ)
    (bp : ℚ) : StratState :=
  { s with capital := s.capital -
             min s.daily_capital cfg.initial_capital * cfg.max_position_fraction /
               min bp b.low * min bp b.low
         , position := some { buy_price := min bp b.low
                            , buy_level := k + 1
                            , qty := min s.daily_capital cfg.initial_capital *
                                       cfg.max_position_fraction / min bp b.low
                            , date := b.date
                            , profit_prices := snap
                            , entry_bar := i
                            , entry_hour := b.hour }
         , trade_log := s.trade_log ++ [{ time := b.time
                                        , signal_type := Side.buy
                                        , price := min bp b.low
                                        , quantity := min s.daily_capital cfg.initial_capital *
                                            cfg.max_position_fraction / min bp b.low
                                        , level := k + 1 }] }

/-- The state produced by a profit-ladder exit at level index `k` with
level price `pp`. -/
def exitState (s : StratState) (b : Bar) (p : Position) (k : ℕ) (pp : ℚ) : StratState :=
  { s with capital := s.capital + p.qty * pp
         , trade_log := s.trade_log ++ [{ time := b.time
                                        , signal_type := Side.sell
                                        , price := pp
                                        , quantity := p.qty
                                        , level := k + 1 }]
         , position := none }

/-- The state produced by the force-close (timeout) exit at the bar's
close, with the sentinel level 5. -/
def timeoutExitState (s : StratState) (b : Bar) (p : Position) : StratState :=
  { s with capital := s.capital + b.close * p.qty
         , trade_log := s.trade_log ++ [{ time := b.time
                                        , signal_type := Side.sell
                                        , price := b.close
                                        , quantity := p.qty
                                        , level := 5 }]
         , position := none }

/-- The `ma14` value used while evaluating bar `i` of a run. -/
def maUsedAt (cfg : Config) (bars : List Bar) (i : ℕ) : ℚ :=
  maCompute (dailyUpdate cfg (prefState cfg bars i) (barAt bars i)) (barAt bars i)

/-- Division that fails (as Python's `/` raises `ZeroDivisionError`) on a
zero divisor. -/
def checkedDiv (a b : ℚ) : Option ℚ := if b = 0 then none else some (a / b)

/-- The buy-level scan with every division routed through `checkedDiv`;
`none` means the Python original would raise on this bar. -/
def buyScanChecked (cfg : Config) (s : StratState) (b : Bar) (snap : List ℚ) (i : ℕ) :
    ℕ → List ℚ → Option StratState
  | _, [] => some s
  | k, bp :: rest =>
    if b.low ≤ bp then
      let buy_price := min bp b.low
      let max_capital := min s.daily_capital cfg.initial_capital
      let max_per_level := max_capital * cfg.max_position_fraction
      (checkedDiv max_per_level buy_price).bind fun qty =>
        if qty * buy_price ≤ s.capital then
          some { s with capital := s.capital - qty * buy_price
                      , position := some { buy_price := buy_price
                                         , buy_level := k + 1
                                         , qty := qty
                                         , date := b.date
                                         , profit_prices := snap
                                         , entry_bar := i
                                         , entry_hour := b.hour }
                      , trade_log := s.trade_log ++ [{ time := b.time
                                                     , signal_type := Side.buy
                                                     , price := buy_price
                                                     , quantity := qty
                                                     , level := k + 1 }] }
        else buyScanChecked cfg s b snap i (k + 1) rest
    else buyScanChecked cfg s b snap i (k + 1) rest

/-- The buy logic with checked divisions. -/
def buyPhaseChecked (cfg : Config) (s : StratState) (b : Bar) (ma : ℚ) : Option StratState :=
  if s.position = none ∧ b.hour ≤ 2 then
    buyScanChecked cfg s b (profitPrices cfg ma) s.bar_index 0 (buildPrices cfg ma)
  else some s

/-- The profit-level scan with the checked division of the (displayed)
profit percentage computed on a hit. -/
def sellScanChecked (s : StratState) (b : Bar) (p : Position) :
    ℕ → List ℚ → Option StratState
  | _, [] => some s
  | k, pp :: rest =>
    if b.high ≥ pp then
      (checkedDiv (pp - p.buy_price) p.buy_price).bind fun _ =>
        some { s with capital := s.capital + p.qty * pp
                    , trade_log := s.trade_log ++ [{ time := b.time
                                                   , signal_type := Side.sell
                                                   , price := pp
                                                   , quantity := p.qty
                                                   , level := k + 1 }]
                    , position := none }
    else sellScanChecked s b p (k + 1) rest

/-- The sell logic with checked divisions. -/
def sellPhaseChecked (s : StratState) (b : Bar) : Option StratState :=
  match s.position with
  | none => some s
  | some p =>
    if p.entry_bar < s.bar_index then
      (sellScanChecked s b p 0 p.profit_prices).bind fun s2 =>
        match s2.position with
        | none => some s2
        | some p2 =>
          if 4 ≤ b.hour ∧ b.hour < 22 then
            (checkedDiv (b.close - p.buy_price) p.buy_price).bind fun pct =>
              if 0 < pct * 100 then
                some { s2 with capital := s2.capital + b.close * p2.qty
                             , trade_log := s2.trade_log ++ [{ time := b.time
                                                             , signal_type := Side.sell
                                                             , price := b.close
                                                             , quantity := p2.qty
                                                             , level := 5 }]
                             , position := none }
              else some s2
          else some s2
    else some s

/-- One bar with checked divisions: `none` exactly when evaluating the
bar executes a division by zero. -/
def stepBarChecked (cfg : Config) (s : StratState) (b : Bar) : Option StratState :=
  let s0 := dailyUpdate cfg s b
  let ma := maCompute s0 b
  (buyPhaseChecked cfg s0 b ma).bind fun s1 =>
    (sellPhaseChecked s1 b).map fun s2 => finishBar s2 b

/-- The backtest with checked divisions, from a given state. -/
def runListChecked (cfg : Config) : List Bar → StratState → Option StratState
  | [], s => some s
  | b :: rest, s => (stepBarChecked cfg s b).bind (runListChecked cfg rest)

/-- The whole backtest with checked divisions. -/
def runBacktestChecked (cfg : Config) (bars : List Bar) : Option StratState :=
  runListChecked cfg bars (initState cfg)

/-- Well-formedness of the trade log relative to the open position: read
left to right the log strictly alternates buy, sell, buy, sell, …
starting with a buy; the second component records the quantity of a
trailing unmatched buy (the open position's quantity), and every sell's
quantity equals the quantity of the immediately preceding buy. -/
inductive LogOk : List TradeSignal → Option ℚ → Prop where
  | nil : LogOk [] none
  | buy (l : List TradeSignal) (sig : TradeSignal) (h : LogOk l none)
      (hs : sig.signal_type = Side.buy) : LogOk (l ++ [sig]) (some sig.quantity)
  | sell (l : List TradeSignal) (sig : TradeSignal) (q : ℚ) (h : LogOk l (some q))
      (hs : sig.signal_type = Side.sell) (hq : sig.quantity = q) : LogOk (l ++ [sig]) none

/-- The run-state invariant behind capital non-negativity: capital and
daily capital are non-negative, recorded closes are non-negative, and an
open position has non-negative quantity and non-negative frozen profit
prices. -/
def Inv7 (s : StratState) : Prop :=
  0 ≤ s.capital ∧ 0 ≤ s.daily_capital ∧ (∀ c ∈ s.closes, 0 ≤ c) ∧
    ∀ p, s.position = some p → 0 ≤ p.qty ∧ ∀ q ∈ p.profit_prices, 0 ≤ q

/-- An open position always carries a positive entry price (it was the
low of a well-formed bar). -/
def PosPricePos (s : StratState) : Prop :=
  ∀ p, s.position = some p → 0 < p.buy_price

/-- The configuration constraints used by the invariant proofs; the
source's fixed `Config` satisfies them. -/
def nonnegConfig (cfg : Config) : Prop :=
  0 ≤ cfg.initial_capital ∧ 0 ≤ cfg.max_position_fraction ∧
    0 ≤ cfg.sell_rise ∧ 0 ≤ cfg.level_spread

/-- Calendar dates are non-decreasing along the bar stream. -/
def DatesMono (bars : List Bar) : Prop :=
  List.Chain' (fun a b => a.date ≤ b.date) bars

/-- Timestamps are non-decreasing along the bar stream. -/
def TimesMono (bars : List Bar) : Prop :=
  List.Chain' (fun a b => a.time ≤ b.time) bars

/-- Concrete bar: hour 1, low 95, close 100 (used as an entry bar). -/
def bEntry : Bar :=
  { time := 0, date := 0, hour := 1, open_price := 100, close := 100, high := 100, low := 95 }

/-- Concrete flat state with zero available capital. -/
def cxState1 : StratState :=
  { capital := 0, daily_capital := 20000, position := none, trade_log := []
  , current_date := some 0, closes := [], bar_index := 0 }

/-- Concrete flat state whose daily capital is zero, so the sizing rule
computes a zero quantity. -/
def zeroQtyState : StratState :=
  { capital := 1000, daily_capital := 0, position := none, trade_log := []
  , current_date := some 0, closes := [], bar_index := 0 }

/-- Concrete open position: entered at 95 on bar 0, quantity 4000/95,
frozen profit ladder 100.10 … 100.50. -/
def posOpen : Position :=
  { buy_price := 95, buy_level := 1, qty := 800/19, date := 0
  , profit_prices := [1001/10, 501/5, 1003/10, 502/5, 201/2]
  , entry_bar := 0, entry_hour := 1 }

/-- Concrete state holding `posOpen` on bar index 1. -/
def sOpen : StratState :=
  { capital := 16000, daily_capital := 20000, position := some posOpen, trade_log := []
  , current_date := some 0, closes := [100], bar_index := 1 }

/-- Concrete bar whose high 100.25 touches the frozen profit ladder. -/
def bExitHit : Bar :=
  { time := 1, date := 0, hour := 10, open_price := 100, close := 100, high := 401/4, low := 99 }

/-- Concrete bar reaching no profit level, at hour 5 with a close above
the entry price. -/
def bExitTimeoutWin : Bar :=
  { time := 1, date := 0, hour := 5, open_price := 96, close := 96, high := 99, low := 95 }

/-- Concrete bar reaching no profit level, at hour 5 with a close below
the entry price. -/
def bExitTimeoutLoss : Bar :=
  { time := 1, date := 0, hour := 5, open_price := 94, close := 94, high := 99, low := 93 }

/-- Concrete neutral bar on date 0 (hour 3, so no entry can happen). -/
def bDay0 : Bar :=
  { time := 0, date := 0, hour := 3, open_price := 100, close := 100, high := 100, low := 100 }

/-- Concrete neutral bar on date 1. -/
def bDay1 : Bar :=
  { time := 1, date := 1, hour := 3, open_price := 100, close := 100, high := 100, low := 100 }

/-- A two-bar stream crossing a calendar-date boundary. -/
def barsTwoDays : List Bar := [bDay0, bDay1]

/-! ### Lemmas about the rounding function -/

theorem roundHalfEven_nonneg (q : ℚ) (hq : 0 ≤ q) : 0 ≤ roundHalfEven q := by
  have hf : 0 ≤ ⌊q⌋ := Int.floor_nonneg.mpr hq
  rw [roundHalfEven]
  split
  · exact hf
  · split
    · omega
    · split
      · exact hf
      · omega

theorem roundHalfEven_mono {q r : ℚ} (h : q ≤ r) : roundHalfEven q ≤ roundHalfEven r := by
  have hfr : (⌊r⌋ : ℚ) ≤ r := Int.floor_le r
  have hfq : q - 1 < ⌊q⌋ := by
    have := Int.lt_floor_add_one q
    linarith
  have hf : ⌊q⌋ ≤ ⌊r⌋ := Int.floor_mono h
  rcases lt_or_eq_of_le hf with hlt | heq
  · -- different floors: the left value is at most `⌊q⌋ + 1 ≤ ⌊r⌋`
    have h1 : roundHalfEven q ≤ ⌊q⌋ + 1 := by
      rw [roundHalfEven]
      split
      · omega
      · split
        · omega
        · split <;> omega
    have h2 : (⌊r⌋ : ℤ) ≤ roundHalfEven r := by
      rw [roundHalfEven]
      split
      · omega
      · split
        · omega
        · split <;> omega
    omega
  · -- equal floors: compare the fractional parts
    rw [roundHalfEven, roundHalfEven]
    simp only [← heq]
    have hfrac : q - ⌊q⌋ ≤ r - ⌊q⌋ := by linarith
    split_ifs <;> first | omega | linarith

theorem round2_nonneg (q : ℚ) (hq : 0 ≤ q) : 0 ≤ round2 q := by
  rw [round2]
  have := roundHalfEven_nonneg (q * 100) (by positivity)
  positivity

theorem round2_mono {q r : ℚ} (h : q ≤ r) : round2 q ≤ round2 r := by
  rw [round2, round2]
  have := roundHalfEven_mono (show q * 100 ≤ r * 100 by linarith)
  have hc : ((roundHalfEven (q * 100) : ℚ)) ≤ (roundHalfEven (r * 100) : ℚ) := by
    exact_mod_cast this
  linarith

theorem round2_eq_of_lt (q : ℚ) (n : ℤ) (h1 : (n : ℚ) ≤ q * 100) (h2 : q * 100 < n + 1/2) :
    round2 q = (n : ℚ)/100 := by
  have hf : ⌊q * 100⌋ = n := by
    rw [Int.floor_eq_iff]
    exact ⟨h1, by push_cast; linarith⟩
  rw [round2, roundHalfEven]
  simp only [hf]
  rw [if_pos (by linarith)]

theorem round2_eq_of_gt (q : ℚ) (n : ℤ) (h1 : (n : ℚ) - 1/2 < q * 100) (h2 : q * 100 ≤ n) :
    round2 q = (n : ℚ)/100 := by
  rcases eq_or_lt_of_le h2 with heq | hlt
  · have hf : ⌊q * 100⌋ = n := by rw [heq]; exact Int.floor_intCast n
    rw [round2, roundHalfEven]
    simp only [hf]
    rw [if_pos (by rw [heq]; linarith)]
  · have hf : ⌊q * 100⌋ = n - 1 := by
      rw [Int.floor_eq_iff]
      constructor
      · push_cast; linarith
      · push_cast; linarith
    rw [round2, roundHalfEven]
    simp only [hf]
    rw [if_neg (by push_cast; linarith), if_pos (by push_cast; linarith)]
    push_cast
    ring

/-! ### Characterization of the level scans -/

theorem min_eq_low {low bp : ℚ} (h : low ≤ bp) : min bp low = low := min_eq_right h

theorem buyScan_eq (cfg : Config) (s : StratState) (b : Bar) (snap : List ℚ) (i : ℕ) :
    ∀ k l, buyScan cfg s b snap i k l =
      if costOf cfg s b ≤ s.capital then
        (match firstBuildHitAux b.low k l with
         | none => s
         | some (k2, bp2) => entryState cfg s b snap i k2 bp2)
      else s
  | k, [] => by
    rw [buyScan, firstBuildHitAux]
    split <;> rfl
  | k, bp :: rest => by
    rw [buyScan, firstBuildHitAux]
    by_cases hbp : b.low ≤ bp
    · rw [if_pos hbp, if_pos hbp]
      have hmin : min bp b.low = b.low := min_eq_low hbp
      have hcost : min s.daily_capital cfg.initial_capital * cfg.max_position_fraction /
          min bp b.low * min bp b.low = costOf cfg s b := by
        rw [hmin]; rfl
      simp only [hcost]
      by_cases hc : costOf cfg s b ≤ s.capital
      · rw [if_pos hc, if_pos hc, entryState]
        simp only [hcost]
      · rw [if_neg hc, if_neg hc, buyScan_eq cfg s b snap i (k+1) rest, if_neg hc]
    · rw [if_neg hbp, if_neg hbp]
      exact buyScan_eq cfg s b snap i (k+1) rest

theorem sellScan_eq (s : StratState) (b : Bar) (p : Position) :
    ∀ k l, sellScan s b p k l =
      (match firstProfitHitAux b.high k l with
       | none => s
       | some (k2, pp) => exitState s b p k2 pp)
  | k, [] => by rw [sellScan, firstProfitHitAux]
  | k, pp :: rest => by
    rw [sellScan, firstProfitHitAux]
    by_cases hpp : b.high ≥ pp
    · rw [if_pos hpp, if_pos hpp]
      rfl
    · rw [if_neg hpp, if_neg hpp]
      exact sellScan_eq s b p (k+1) rest

theorem buyPhase_eq (cfg : Config) (s : StratState) (b : Bar) (ma : ℚ) :
    buyPhase cfg s b ma =
      if s.position = none ∧ b.hour ≤ 2 then
        (if costOf cfg s b ≤ s.capital then
          (match firstBuildHit b.low (buildPrices cfg ma) with
           | none => s
           | some (k2, bp2) => entryState cfg s b (profitPrices cfg ma) s.bar_index k2 bp2)
        else s)
      else s := by
  rw [buyPhase, buyScan_eq, firstBuildHit]

theorem exitState_position (s : StratState) (b : Bar) (p : Position) (k : ℕ) (pp : ℚ) :
    (exitState s b p k pp).position = none := rfl

theorem sellPhase_eq (cfg : Config) (s : StratState) (b : Bar) :
    sellPhase cfg s b =
      (match s.position with
       | none => s
       | some p =>
         if p.entry_bar < s.bar_index then
           (match firstProfitHit b.high p.profit_prices with
            | some (k, pp) => exitState s b p k pp
            | none =>
              if 4 ≤ b.hour ∧ b.hour < 22 then
                if 0 < (b.close - p.buy_price) / p.buy_price * 100 then
                  timeoutExitState s b p
                else s
              else s)
         else s) := by
  cases hpos : s.position with
  | none => simp only [sellPhase, hpos]
  | some p =>
    simp only [sellPhase, hpos]
    by_cases hbar : p.entry_bar < s.bar_index
    · rw [if_pos hbar, if_pos hbar, sellScan_eq, firstProfitHit]
      cases hhit : firstProfitHitAux b.high 0 p.profit_prices with
      | none =>
        simp only [hpos]
        by_cases hw : 4 ≤ b.hour ∧ b.hour < 22
        · rw [if_pos hw, if_pos hw]
          by_cases hpct : 0 < (b.close - p.buy_price) / p.buy_price * 100
          · rw [if_pos hpct, if_pos hpct]
            rfl
          · rw [if_neg hpct, if_neg hpct]
        · rw [if_neg hw, if_neg hw]
      | some kpp =>
        obtain ⟨k, pp⟩ := kpp
        simp only [exitState_position]
    · rw [if_neg hbar, if_neg hbar]

/-! ### Frame lemmas: which state fields each phase can touch -/

theorem dailyUpdate_capital (cfg : Config) (s : StratState) (b : Bar) :
    (dailyUpdate cfg s b).capital = s.capital := by
  rw [dailyUpdate]; split <;> rfl

theorem dailyUpdate_position (cfg : Config) (s : StratState) (b : Bar) :
    (dailyUpdate cfg s b).position = s.position := by
  rw [dailyUpdate]; split <;> rfl

theorem dailyUpdate_trade_log (cfg : Config) (s : StratState) (b : Bar) :
    (dailyUpdate cfg s b).trade_log = s.trade_log := by
  rw [dailyUpdate]; split <;> rfl

theorem dailyUpdate_closes (cfg : Config) (s : StratState) (b : Bar) :
    (dailyUpdate cfg s b).closes = s.closes := by
  rw [dailyUpdate]; split <;> rfl

theorem dailyUpdate_bar_index (cfg : Config) (s : StratState) (b : Bar) :
    (dailyUpdate cfg s b).bar_index = s.bar_index := by
  rw [dailyUpdate]; split <;> rfl

theorem dailyUpdate_current_date (cfg : Config) (s : StratState) (b : Bar) :
    (dailyUpdate cfg s b).current_date = some b.date := by
  rw [dailyUpdate]
  split
  · rfl
  · next h =>
    simp only [ne_eq, not_not] at h
    exact h

theorem dailyUpdate_daily_capital (cfg : Config) (s : StratState) (b : Bar) :
    (dailyUpdate cfg s b).daily_capital =
      if s.current_date = some b.date then s.daily_capital
      else cfg.initial_capital + (s.capital - cfg.initial_capital) * (1/2) := by
  rw [dailyUpdate]
  by_cases h : s.current_date = some b.date
  · rw [if_neg (by simpa using h), if_pos h]
  · rw [if_pos (by simpa using h), if_neg h]

theorem buyPhase_daily_capital (cfg : Config) (s : StratState) (b : Bar) (ma : ℚ) :
    (buyPhase cfg s b ma).daily_capital = s.daily_capital := by
  rw [buyPhase_eq]
  split
  · split
    · cases firstBuildHit b.low (buildPrices cfg ma) with
      | none => rfl
      | some kbp => obtain ⟨k, bp⟩ := kbp; rfl
    · rfl
  · rfl

theorem buyPhase_closes (cfg : Config) (s : StratState) (b : Bar) (ma : ℚ) :
    (buyPhase cfg s b ma).closes = s.closes := by
  rw [buyPhase_eq]
  split
  · split
    · cases firstBuildHit b.low (buildPrices cfg ma) with
      | none => rfl
      | some kbp => obtain ⟨k, bp⟩ := kbp; rfl
    · rfl
  · rfl

theorem buyPhase_bar_index (cfg : Config) (s : StratState) (b : Bar) (ma : ℚ) :
    (buyPhase cfg s b ma).bar_index = s.bar_index := by
  rw [buyPhase_eq]
  split
  · split
    · cases firstBuildHit b.low (buildPrices cfg ma) with
      | none => rfl
      | some kbp => obtain ⟨k, bp⟩ := kbp; rfl
    · rfl
  · rfl

theorem buyPhase_current_date (cfg : Config) (s : StratState) (b : Bar) (ma : ℚ) :
    (buyPhase cfg s b ma).current_date = s.current_date := by
  rw [buyPhase_eq]
  split
  · split
    · cases firstBuildHit b.low (buildPrices cfg ma) with
      | none => rfl
      | some kbp => obtain ⟨k, bp⟩ := kbp; rfl
    · rfl
  · rfl

theorem sellPhase_frame (cfg : Config) (s : StratState) (b : Bar) :
    (sellPhase cfg s b).daily_capital = s.daily_capital ∧
    (sellPhase cfg s b).closes = s.closes ∧
    (sellPhase cfg s b).bar_index = s.bar_index ∧
    (sellPhase cfg s b).current_date = s.current_date := by
  rw [sellPhase_eq]
  split
  · exact ⟨rfl, rfl, rfl, rfl⟩
  · split
    · split
      · exact ⟨rfl, rfl, rfl, rfl⟩
      · split
        · split
          · exact ⟨rfl, rfl, rfl, rfl⟩
          · exact ⟨rfl, rfl, rfl, rfl⟩
        · exact ⟨rfl, rfl, rfl, rfl⟩
    · exact ⟨rfl, rfl, rfl, rfl⟩

theorem sellPhase_daily_capital (cfg : Config) (s : StratState) (b : Bar) :
    (sellPhase cfg s b).daily_capital = s.daily_capital := (sellPhase_frame cfg s b).1

theorem sellPhase_closes (cfg : Config) (s : StratState) (b : Bar) :
    (sellPhase cfg s b).closes = s.closes := (sellPhase_frame cfg s b).2.1

theorem sellPhase_bar_index (cfg : Config) (s : StratState) (b : Bar) :
    (sellPhase cfg s b).bar_index = s.bar_index := (sellPhase_frame cfg s b).2.2.1

theorem sellPhase_current_date (cfg : Config) (s : StratState) (b : Bar) :
    (sellPhase cfg s b).current_date = s.current_date := (sellPhase_frame cfg s b).2.2.2

theorem stepBar_daily_capital (cfg : Config) (s : StratState) (b : Bar) :
    (stepBar cfg s b).daily_capital = (dailyUpdate cfg s b).daily_capital := by
  rw [stepBar, finishBar]
  show (sellPhase cfg _ b).daily_capital = _
  rw [sellPhase_daily_capital, buyPhase_daily_capital]

theorem stepBar_current_date (cfg : Config) (s : StratState) (b : Bar) :
    (stepBar cfg s b).current_date = some b.date := by
  rw [stepBar, finishBar]
  show (sellPhase cfg _ b).current_date = _
  rw [sellPhase_current_date, buyPhase_current_date, dailyUpdate_current_date]

theorem stepBar_closes (cfg : Config) (s : StratState) (b : Bar) :
    (stepBar cfg s b).closes = s.closes ++ [b.close] := by
  rw [stepBar, finishBar]
  show (sellPhase cfg _ b).closes ++ [b.close] = _
  rw [sellPhase_closes, buyPhase_closes, dailyUpdate_closes]

theorem stepBar_bar_index (cfg : Config) (s : StratState) (b : Bar) :
    (stepBar cfg s b).bar_index = s.bar_index + 1 := by
  rw [stepBar, finishBar]
  show (sellPhase cfg _ b).bar_index + 1 = _
  rw [sellPhase_bar_index, buyPhase_bar_index, dailyUpdate_bar_index]

/-! ### Characterization of the first-hit searches -/

theorem firstProfitHitAux_some (high : ℚ) :
    ∀ k l k2 pp, firstProfitHitAux high k l = some (k2, pp) →
      k ≤ k2 ∧ l.get? (k2 - k) = some pp ∧ pp ≤ high ∧
        ∀ j q, j < k2 - k → l.get? j = some q → high < q
  | k, [], k2, pp, h => by rw [firstProfitHitAux] at h; exact absurd h (by simp)
  | k, x :: rest, k2, pp, h => by
    rw [firstProfitHitAux] at h
    by_cases hx : high ≥ x
    · rw [if_pos hx] at h
      injection h with h'
      injection h' with ha hb
      subst ha; subst hb
      refine ⟨le_refl _, ?_, hx, ?_⟩
      · simp
      · intro j q hj hq
        exact absurd hj (by omega)
    · rw [if_neg hx] at h
      obtain ⟨h1, h2, h3, h4⟩ := firstProfitHitAux_some high (k+1) rest k2 pp h
      have hk : k ≤ k2 := by omega
      have hsub : k2 - k = (k2 - (k+1)) + 1 := by omega
      refine ⟨hk, ?_, h3, ?_⟩
      · rw [hsub]; simpa using h2
      · intro j q hj hq
        match j with
        | 0 =>
          simp only [List.get?] at hq
          injection hq with hq'
          subst hq'
          exact lt_of_not_ge hx
        | j' + 1 =>
          refine h4 j' q (by omega) ?_
          simpa using hq

theorem firstBuildHitAux_some (low : ℚ) :
    ∀ k l k2 bp, firstBuildHitAux low k l = some (k2, bp) →
      k ≤ k2 ∧ l.get? (k2 - k) = some bp ∧ low ≤ bp ∧
        ∀ j q, j < k2 - k → l.get? j = some q → q < low
  | k, [], k2, bp, h => by rw [firstBuildHitAux] at h; exact absurd h (by simp)
  | k, x :: rest, k2, bp, h => by
    rw [firstBuildHitAux] at h
    by_cases hx : low ≤ x
    · rw [if_pos hx] at h
      injection h with h'
      injection h' with ha hb
      subst ha; subst hb
      refine ⟨le_refl _, ?_, hx, ?_⟩
      · simp
      · intro j q hj hq
        exact absurd hj (by omega)
    · rw [if_neg hx] at h
      obtain ⟨h1, h2, h3, h4⟩ := firstBuildHitAux_some low (k+1) rest k2 bp h
      have hk : k ≤ k2 := by omega
      have hsub : k2 - k = (k2 - (k+1)) + 1 := by omega
      refine ⟨hk, ?_, h3, ?_⟩
      · rw [hsub]; simpa using h2
      · intro j q hj hq
        match j with
        | 0 =>
          simp only [List.get?] at hq
          injection hq with hq'
          subst hq'
          exact lt_of_not_le hx
        | j' + 1 =>
          refine h4 j' q (by omega) ?_
          simpa using hq

theorem firstProfitHitAux_none (high : ℚ) :
    ∀ k l, firstProfitHitAux high k l = none ↔ ∀ q ∈ l, high < q
  | k, [] => by simp [firstProfitHitAux]
  | k, x :: rest => by
    rw [firstProfitHitAux]
    by_cases hx : high ≥ x
    · rw [if_pos hx]
      simp only [List.mem_cons]
      constructor
      · intro h; exact absurd h (by simp)
      · intro h; exact absurd (h x (Or.inl rfl)) (not_lt_of_ge hx)
    · rw [if_neg hx]
      rw [firstProfitHitAux_none high (k+1) rest]
      simp only [List.mem_cons]
      constructor
      · intro h q hq
        rcases hq with hq | hq
        · subst hq; exact lt_of_not_ge hx
        · exact h q hq
      · intro h q hq
        exact h q (Or.inr hq)

theorem firstBuildHitAux_none (low : ℚ) :
    ∀ k l, firstBuildHitAux low k l = none ↔ ∀ q ∈ l, q < low
  | k, [] => by simp [firstBuildHitAux]
  | k, x :: rest => by
    rw [firstBuildHitAux]
    by_cases hx : low ≤ x
    · rw [if_pos hx]
      simp only [List.mem_cons]
      constructor
      · intro h; exact absurd h (by simp)
      · intro h; exact absurd (h x (Or.inl rfl)) (not_lt_of_le hx)
    · rw [if_neg hx]
      rw [firstBuildHitAux_none low (k+1) rest]
      simp only [List.mem_cons]
      constructor
      · intro h q hq
        rcases hq with hq | hq
        · subst hq; exact lt_of_not_le hx
        · exact h q hq
      · intro h q hq
        exact h q (Or.inr hq)

theorem firstProfitHit_exists {high : ℚ} {l : List ℚ} (h : ∃ q ∈ l, q ≤ high) :
    ∃ k pp, firstProfitHit high l = some (k, pp) := by
  rw [firstProfitHit]
  cases hh : firstProfitHitAux high 0 l with
  | none =>
    obtain ⟨q, hq, hqle⟩ := h
    exact absurd hqle (not_le_of_lt ((firstProfitHitAux_none high 0 l).mp hh q hq))
  | some kpp => exact ⟨kpp.1, kpp.2, rfl⟩

theorem firstBuildHit_exists {low : ℚ} {l : List ℚ} (h : ∃ q ∈ l, low ≤ q) :
    ∃ k bp, firstBuildHit low l = some (k, bp) := by
  rw [firstBuildHit]
  cases hh : firstBuildHitAux low 0 l with
  | none =>
    obtain ⟨q, hq, hqle⟩ := h
    exact absurd hqle (not_le_of_lt ((firstBuildHitAux_none low 0 l).mp hh q hq))
  | some kbp => exact ⟨kbp.1, kbp.2, rfl⟩

theorem firstProfitHit_mem {high : ℚ} {l : List ℚ} {k : ℕ} {pp : ℚ}
    (h : firstProfitHit high l = some (k, pp)) : pp ∈ l ∧ pp ≤ high := by
  obtain ⟨-, h2, h3, -⟩ := firstProfitHitAux_some high 0 l k pp h
  exact ⟨List.get?_mem (by simpa using h2), h3⟩

theorem firstBuildHit_mem {low : ℚ} {l : List ℚ} {k : ℕ} {bp : ℚ}
    (h : firstBuildHit low l = some (k, bp)) : bp ∈ l ∧ low ≤ bp := by
  obtain ⟨-, h2, h3, -⟩ := firstBuildHitAux_some low 0 l k bp h
  exact ⟨List.get?_mem (by simpa using h2), h3⟩

/-! ### The run as iterated stepping -/

theorem prefState_zero (cfg : Config) (bars : List Bar) :
    prefState cfg bars 0 = initState cfg := rfl

theorem prefState_succ (cfg : Config) (bars : List Bar) (i : ℕ) (hi : i < bars.length) :
    prefState cfg bars (i+1) = stepBar cfg (prefState cfg bars i) (barAt bars i) := by
  rw [prefState, prefState, runBacktest, runBacktest, List.take_succ]
  rw [List.foldl_append]
  have : bars[i]? = some (barAt bars i) := by
    rw [List.getElem?_eq_getElem hi, barAt, List.getD_eq_getElem _ _ hi]
  rw [this]
  rfl

theorem prefState_succ_of_le (cfg : Config) (bars : List Bar) (i : ℕ)
    (hi : bars.length ≤ i) :
    prefState cfg bars (i+1) = prefState cfg bars i := by
  rw [prefState, prefState, List.take_of_length_le hi, List.take_of_length_le (by omega)]

theorem prefState_induction (cfg : Config) (bars : List Bar) (P : StratState → Prop)
    (h0 : P (initState cfg))
    (hstep : ∀ s b, b ∈ bars → P s → P (stepBar cfg s b)) :
    ∀ i, P (prefState cfg bars i) := by
  intro i
  induction i with
  | zero => rw [prefState_zero]; exact h0
  | succ j ih =>
    by_cases hj : j < bars.length
    · rw [prefState_succ cfg bars j hj]
      refine hstep _ _ ?_ ih
      rw [barAt, List.getD_eq_getElem _ _ hj]
      exact List.getElem_mem hj
    · rw [prefState_succ_of_le cfg bars j (by omega)]
      exact ih

theorem prefState_closes (cfg : Config) (bars : List Bar) :
    ∀ i, i ≤ bars.length →
      (prefState cfg bars i).closes = (bars.take i).map Bar.close := by
  intro i
  induction i with
  | zero => intro _; rfl
  | succ j ih =>
    intro hj
    rw [prefState_succ cfg bars j (by omega), stepBar_closes,
      ih (by omega), List.take_succ]
    rw [List.getElem?_eq_getElem (by omega : j < bars.length)]
    simp only [List.map_append, Option.toList_some, List.map_cons, List.map_nil]
    rw [barAt, List.getD_eq_getElem _ _ (by omega : j < bars.length)]

theorem prefState_bar_index (cfg : Config) (bars : List Bar) :
    ∀ i, i ≤ bars.length → (prefState cfg bars i).bar_index = i := by
  intro i
  induction i with
  | zero => intro _; rfl
  | succ j ih =>
    intro hj
    rw [prefState_succ cfg bars j (by omega), stepBar_bar_index, ih (by omega)]

theorem prefState_current_date (cfg : Config) (bars : List Bar) (i : ℕ)
    (h0 : 0 < i) (hi : i ≤ bars.length) :
    (prefState cfg bars i).current_date = some (barAt bars (i-1)).date := by
  obtain ⟨j, rfl⟩ : ∃ j, i = j + 1 := ⟨i - 1, by omega⟩
  rw [prefState_succ cfg bars j (by omega), stepBar_current_date]
  simp

/-! ### Stepping a bar with an open position -/

theorem finishBar_capital (s : StratState) (b : Bar) :
    (finishBar s b).capital = s.capital := rfl

theorem finishBar_trade_log (s : StratState) (b : Bar) :
    (finishBar s b).trade_log = s.trade_log := rfl

theorem finishBar_position (s : StratState) (b : Bar) :
    (finishBar s b).position = s.position := rfl

theorem finishBar_daily_capital (s : StratState) (b : Bar) :
    (finishBar s b).daily_capital = s.daily_capital := rfl

theorem stepBar_open_eq (cfg : Config) (s : StratState) (b : Bar) (p : Position)
    (hp : s.position = some p) :
    stepBar cfg s b = finishBar (sellPhase cfg (dailyUpdate cfg s b) b) b := by
  have h0 : (dailyUpdate cfg s b).position = some p := by
    rw [dailyUpdate_position, hp]
  have h1 : buyPhase cfg (dailyUpdate cfg s b) b (maCompute (dailyUpdate cfg s b) b) =
      dailyUpdate cfg s b := by
    rw [buyPhase, if_neg]
    intro hcon
    rw [h0] at hcon
    exact absurd hcon.1 (by simp)
  simp only [stepBar]
  rw [h1]

theorem stepBar_flat_eq (cfg : Config) (s : StratState) (b : Bar) :
    stepBar cfg s b =
      finishBar (sellPhase cfg
        (buyPhase cfg (dailyUpdate cfg s b) b (maCompute (dailyUpdate cfg s b) b)) b) b := by
  simp only [stepBar]

/-- C2: with a position open and the current bar index strictly greater
than the entry bar index, if some level of the profit ladder frozen at
entry has price at most the bar's high, the position is closed at the
first such level's exact price (scanning from level 0 upward): capital is
credited with quantity times that price, a sell signal at that price with
level index + 1 is appended, and the position becomes absent. On the
entry bar itself (same bar index) no exit of any kind is evaluated. -/
theorem c2_profit_ladder_exit (cfg : Config) (s : StratState) (b : Bar) (p : Position)
    (hp : s.position = some p) :
    (p.entry_bar < s.bar_index →
      (∃ q ∈ p.profit_prices, q ≤ b.high) →
      ∃ k pp, firstProfitHit b.high p.profit_prices = some (k, pp) ∧
        p.profit_prices.get? k = some pp ∧ pp ≤ b.high ∧
        (∀ j q, j < k → p.profit_prices.get? j = some q → b.high < q) ∧
        (stepBar cfg s b).capital = s.capital + p.qty * pp ∧
        (stepBar cfg s b).trade_log = s.trade_log ++
          [{ time := b.time, signal_type := Side.sell, price := pp
           , quantity := p.qty, level := k + 1 }] ∧
        (stepBar cfg s b).position = none) ∧
    (s.bar_index = p.entry_bar →
      (stepBar cfg s b).capital = s.capital ∧
      (stepBar cfg s b).trade_log = s.trade_log ∧
      (stepBar cfg s b).position = some p) := by
  have h0 : (dailyUpdate cfg s b).position = some p := by
    rw [dailyUpdate_position, hp]
  rw [stepBar_open_eq cfg s b p hp]
  constructor
  · intro hbar hex
    obtain ⟨k, pp, hhit⟩ := firstProfitHit_exists hex
    obtain ⟨-, hget, hle, hfirst⟩ := firstProfitHitAux_some b.high 0 p.profit_prices k pp hhit
    refine ⟨k, pp, hhit, by simpa using hget, hle, ?_, ?_⟩
    · intro j q hj hq
      exact hfirst j q (by omega) hq
    · have hsell : sellPhase cfg (dailyUpdate cfg s b) b =
          exitState (dailyUpdate cfg s b) b p k pp := by
        simp only [sellPhase_eq, h0, dailyUpdate_bar_index]
        rw [if_pos hbar, hhit]
      rw [hsell]
      refine ⟨?_, ?_, rfl⟩
      · rw [finishBar_capital]
        show (dailyUpdate cfg s b).capital + p.qty * pp = _
        rw [dailyUpdate_capital]
      · rw [finishBar_trade_log]
        show (dailyUpdate cfg s b).trade_log ++ _ = _
        rw [dailyUpdate_trade_log]
  · intro hbar
    have hsell : sellPhase cfg (dailyUpdate cfg s b) b = dailyUpdate cfg s b := by
      simp only [sellPhase_eq, h0, dailyUpdate_bar_index]
      rw [if_neg (by omega)]
    rw [hsell]
    rw [finishBar_capital, finishBar_trade_log, finishBar_position]
    exact ⟨dailyUpdate_capital cfg s b, dailyUpdate_trade_log cfg s b, h0⟩

theorem pos_mul_hundred_iff (x : ℚ) : 0 < x * 100 ↔ 0 < x := by
  constructor
  · intro h; nlinarith
  · intro h; nlinarith

/-- C3: with a position open, the bar index strictly greater than the
entry bar index, and no frozen profit level at or below the bar's high
(so the profit-ladder exit did not fire): if the bar's hour lies in
[4, 22) and the relative profit (close - entry price)/entry price is
strictly positive, the full quantity is closed at the bar's close,
capital is credited and a sell signal at level 5 is appended; if the
profit is zero or negative, or the hour is outside [4, 22), the position
is carried forward unchanged - the timeout rule never closes at a
loss. -/
theorem c3_timeout_exit (cfg : Config) (s : StratState) (b : Bar) (p : Position)
    (hp : s.position = some p) (hbar : p.entry_bar < s.bar_index)
    (hnohit : ∀ q ∈ p.profit_prices, b.high < q) :
    ((4 ≤ b.hour ∧ b.hour < 22) → 0 < (b.close - p.buy_price) / p.buy_price →
      (stepBar cfg s b).capital = s.capital + b.close * p.qty ∧
      (stepBar cfg s b).trade_log = s.trade_log ++
        [{ time := b.time, signal_type := Side.sell, price := b.close
         , quantity := p.qty, level := 5 }] ∧
      (stepBar cfg s b).position = none) ∧
    ((¬ (4 ≤ b.hour ∧ b.hour < 22) ∨ (b.close - p.buy_price) / p.buy_price ≤ 0) →
      (stepBar cfg s b).capital = s.capital ∧
      (stepBar cfg s b).trade_log = s.trade_log ∧
      (stepBar cfg s b).position = some p) := by
  have h0 : (dailyUpdate cfg s b).position = some p := by
    rw [dailyUpdate_position, hp]
  have hhit : firstProfitHit b.high p.profit_prices = none := by
    rw [firstProfitHit]
    exact (firstProfitHitAux_none b.high 0 p.profit_prices).mpr hnohit
  rw [stepBar_open_eq cfg s b p hp]
  constructor
  · intro hw hpct
    have hsell : sellPhase cfg (dailyUpdate cfg s b) b =
        timeoutExitState (dailyUpdate cfg s b) b p := by
      simp only [sellPhase_eq, h0, dailyUpdate_bar_index]
      rw [if_pos hbar, hhit, if_pos hw, if_pos ((pos_mul_hundred_iff _).mpr hpct)]
    rw [hsell]
    refine ⟨?_, ?_, rfl⟩
    · rw [finishBar_capital]
      show (dailyUpdate cfg s b).capital + b.close * p.qty = _
      rw [dailyUpdate_capital]
    · rw [finishBar_trade_log]
      show (dailyUpdate cfg s b).trade_log ++ _ = _
      rw [dailyUpdate_trade_log]
  · intro hneg
    have hsell : sellPhase cfg (dailyUpdate cfg s b) b = dailyUpdate cfg s b := by
      simp only [sellPhase_eq, h0, dailyUpdate_bar_index]
      rw [if_pos hbar, hhit]
      rcases hneg with hw | hpct
      · rw [if_neg hw]
      · by_cases hw : 4 ≤ b.hour ∧ b.hour < 22
        · rw [if_pos hw, if_neg]
          intro hcon
          exact absurd ((pos_mul_hundred_iff _).mp hcon) (not_lt_of_le hpct)
        · rw [if_neg hw]
    rw [hsell]
    rw [finishBar_capital, finishBar_trade_log, finishBar_position]
    exact ⟨dailyUpdate_capital cfg s b, dailyUpdate_trade_log cfg s b, h0⟩

theorem round2_eval (q : ℚ) (n : ℤ) (h1 : (n : ℚ) - 1/2 < q * 100) (h2 : q * 100 < n + 1/2) :
    round2 q = (n : ℚ)/100 := by
  rcases le_or_lt (n : ℚ) (q * 100) with h | h
  · exact round2_eq_of_lt q n h h2
  · exact round2_eq_of_gt q n h1 (le_of_lt h)

theorem sellPhase_log_cases (cfg : Config) (s : StratState) (b : Bar) :
    ((sellPhase cfg s b).trade_log = s.trade_log ∧ (sellPhase cfg s b).position = s.position) ∨
    (∃ sig, (sellPhase cfg s b).trade_log = s.trade_log ++ [sig] ∧
      sig.signal_type = Side.sell ∧ (sellPhase cfg s b).position = none) := by
  rw [sellPhase_eq]
  split
  · exact Or.inl ⟨rfl, rfl⟩
  · next p hpos =>
    split
    · split
      · next k pp heq =>
        exact Or.inr ⟨_, rfl, rfl, rfl⟩
      · split
        · split
          · exact Or.inr ⟨_, rfl, rfl, rfl⟩
          · exact Or.inl ⟨rfl, rfl⟩
        · exact Or.inl ⟨rfl, rfl⟩
    · exact Or.inl ⟨rfl, rfl⟩

theorem entryState_position (cfg : Config) (s : StratState) (b : Bar) (snap : List ℚ)
    (i k : ℕ) (bp : ℚ) :
    (entryState cfg s b snap i k bp).position =
      some { buy_price := min bp b.low
           , buy_level := k + 1
           , qty := min s.daily_capital cfg.initial_capital *
                      cfg.max_position_fraction / min bp b.low
           , date := b.date
           , profit_prices := snap
           , entry_bar := i
           , entry_hour := b.hour } := rfl

theorem entryState_bar_index (cfg : Config) (s : StratState) (b : Bar) (snap : List ℚ)
    (i k : ℕ) (bp : ℚ) :
    (entryState cfg s b snap i k bp).bar_index = s.bar_index := rfl

theorem stepBar_entry (cfg : Config) (s : StratState) (b : Bar) (k : ℕ) (bp : ℚ)
    (hpos : s.position = none) (hhour : b.hour ≤ 2)
    (hhit : firstBuildHit b.low (buildPrices cfg (maCompute (dailyUpdate cfg s b) b)) =
      some (k, bp))
    (hcost : costOf cfg (dailyUpdate cfg s b) b ≤ s.capital) :
    (stepBar cfg s b).trade_log = s.trade_log ++
      [{ time := b.time, signal_type := Side.buy, price := min bp b.low
       , quantity := qtyOf cfg (dailyUpdate cfg s b) b, level := k + 1 }] ∧
    (stepBar cfg s b).position =
      some { buy_price := min bp b.low, buy_level := k + 1
           , qty := qtyOf cfg (dailyUpdate cfg s b) b, date := b.date
           , profit_prices := profitPrices cfg (maCompute (dailyUpdate cfg s b) b)
           , entry_bar := s.bar_index, entry_hour := b.hour } ∧
    (stepBar cfg s b).capital = s.capital - costOf cfg (dailyUpdate cfg s b) b ∧
    min bp b.low = b.low := by
  have hmin : min bp b.low = b.low :=
    min_eq_low (firstBuildHit_mem hhit).2
  have h0pos : (dailyUpdate cfg s b).position = none := by
    rw [dailyUpdate_position, hpos]
  have hcost0 : costOf cfg (dailyUpdate cfg s b) b ≤ (dailyUpdate cfg s b).capital := by
    rw [dailyUpdate_capital]; exact hcost
  have hbuy : buyPhase cfg (dailyUpdate cfg s b) b (maCompute (dailyUpdate cfg s b) b) =
      entryState cfg (dailyUpdate cfg s b) b
        (profitPrices cfg (maCompute (dailyUpdate cfg s b) b))
        (dailyUpdate cfg s b).bar_index k bp := by
    rw [buyPhase_eq, if_pos ⟨h0pos, hhour⟩, if_pos hcost0, hhit]
  have hqty : min (dailyUpdate cfg s b).daily_capital cfg.initial_capital *
      cfg.max_position_fraction / min bp b.low = qtyOf cfg (dailyUpdate cfg s b) b := by
    rw [hmin, qtyOf]
  have hsell : sellPhase cfg (entryState cfg (dailyUpdate cfg s b) b
      (profitPrices cfg (maCompute (dailyUpdate cfg s b) b))
      (dailyUpdate cfg s b).bar_index k bp) b =
      entryState cfg (dailyUpdate cfg s b) b
        (profitPrices cfg (maCompute (dailyUpdate cfg s b) b))
        (dailyUpdate cfg s b).bar_index k bp := by
    simp only [sellPhase_eq, entryState_position, entryState_bar_index]
    rw [if_neg (lt_irrefl _)]
  rw [stepBar_flat_eq, hbuy, hsell]
  refine ⟨?_, ?_, ?_, hmin⟩
  · rw [finishBar_trade_log]
    show (dailyUpdate cfg s b).trade_log ++ _ = _
    rw [dailyUpdate_trade_log, hqty]
  · rw [finishBar_position, entryState_position, hqty, dailyUpdate_bar_index]
  · rw [finishBar_capital]
    show (dailyUpdate cfg s b).capital - _ = _
    rw [dailyUpdate_capital, hmin]
    rfl

theorem stepBar_no_entry (cfg : Config) (s : StratState) (b : Bar)
    (hno : 2 < b.hour ∨ s.position ≠ none ∨
      firstBuildHit b.low (buildPrices cfg (maCompute (dailyUpdate cfg s b) b)) = none ∨
      ¬ costOf cfg (dailyUpdate cfg s b) b ≤ s.capital) :
    ((stepBar cfg s b).trade_log = s.trade_log ∨
      ∃ sig, (stepBar cfg s b).trade_log = s.trade_log ++ [sig] ∧
        sig.signal_type = Side.sell) ∧
    ∀ p2, (stepBar cfg s b).position = some p2 → s.position = some p2 := by
  have hbuy : buyPhase cfg (dailyUpdate cfg s b) b (maCompute (dailyUpdate cfg s b) b) =
      dailyUpdate cfg s b := by
    rw [buyPhase_eq]
    rcases hno with hh | hp | hn | hc
    · rw [if_neg]
      intro hcon
      omega
    · rw [if_neg]
      intro hcon
      rw [dailyUpdate_position] at hcon
      exact hp hcon.1
    · by_cases hg : (dailyUpdate cfg s b).position = none ∧ b.hour ≤ 2
      · rw [if_pos hg]
        by_cases hc : costOf cfg (dailyUpdate cfg s b) b ≤ (dailyUpdate cfg s b).capital
        · rw [if_pos hc, hn]
        · rw [if_neg hc]
      · rw [if_neg hg]
    · by_cases hg : (dailyUpdate cfg s b).position = none ∧ b.hour ≤ 2
      · rw [if_pos hg, if_neg]
        rw [dailyUpdate_capital]
        exact hc
      · rw [if_neg hg]
  rw [stepBar_flat_eq, hbuy]
  rcases sellPhase_log_cases cfg (dailyUpdate cfg s b) b with ⟨hl, hq⟩ | ⟨sig, hl, hside, hq⟩
  · constructor
    · left
      rw [finishBar_trade_log, hl, dailyUpdate_trade_log]
    · intro p2 hp2
      rw [finishBar_position, hq, dailyUpdate_position] at hp2
      exact hp2
  · constructor
    · right
      exact ⟨sig, by rw [finishBar_trade_log, hl, dailyUpdate_trade_log], hside⟩
    · intro p2 hp2
      rw [finishBar_position, hq] at hp2
      exact absurd hp2 (by simp)

/-- C1 (amended): with no open position, the bar's hour at most 2, a
first build level whose price is at least the bar's low, and - the
condition the original claim omits - an entry cost not exceeding the
current available capital, exactly one entry occurs on that bar, at that
first level, with fill price min(level price, low) (which equals the
low), quantity budget/fill, and an appended buy signal at level index +
1. If the hour exceeds 2, a position is already open, or no build level
price reaches the low, no entry occurs (the bar can at most append a
sell signal, and any position still open after the bar was open before
it). -/
theorem c1_entry_first_level_amended (cfg : Config) (s : StratState) (b : Bar) :
    (∀ k bp, s.position = none → b.hour ≤ 2 →
      firstBuildHit b.low (buildPrices cfg (maCompute (dailyUpdate cfg s b) b)) =
        some (k, bp) →
      costOf cfg (dailyUpdate cfg s b) b ≤ s.capital →
      (stepBar cfg s b).trade_log = s.trade_log ++
        [{ time := b.time, signal_type := Side.buy, price := min bp b.low
         , quantity := qtyOf cfg (dailyUpdate cfg s b) b, level := k + 1 }] ∧
      (stepBar cfg s b).position =
        some { buy_price := min bp b.low, buy_level := k + 1
             , qty := qtyOf cfg (dailyUpdate cfg s b) b, date := b.date
             , profit_prices := profitPrices cfg (maCompute (dailyUpdate cfg s b) b)
             , entry_bar := s.bar_index, entry_hour := b.hour } ∧
      (stepBar cfg s b).capital = s.capital - costOf cfg (dailyUpdate cfg s b) b ∧
      min bp b.low = b.low) ∧
    ((2 < b.hour ∨ s.position ≠ none ∨
        firstBuildHit b.low (buildPrices cfg (maCompute (dailyUpdate cfg s b) b)) = none) →
      ((stepBar cfg s b).trade_log = s.trade_log ∨
        ∃ sig, (stepBar cfg s b).trade_log = s.trade_log ++ [sig] ∧
          sig.signal_type = Side.sell) ∧
      ∀ p2, (stepBar cfg s b).position = some p2 → s.position = some p2) := by
  constructor
  · intro k bp hpos hhour hhit hcost
    exact stepBar_entry cfg s b k bp hpos hhour hhit hcost
  · intro hno
    refine stepBar_no_entry cfg s b ?_
    rcases hno with h | h | h
    · exact Or.inl h
    · exact Or.inr (Or.inl h)
    · exact Or.inr (Or.inr (Or.inl h))

/-- C4 (amended): the capital check, not the level scan, decides whether
the single evaluated entry opportunity is taken. If the cost at the first
matched level exceeds the current capital, no entry occurs on that bar at
any level (the loop does scan deeper levels, but the check - whose value
does not depend on the level - fails at each, so behaviourally the first
match decides). A zero quantity at the first matched level, however, does
NOT suppress the entry: its cost 0 passes the capital check whenever
capital is non-negative, and a buy signal with quantity 0 is appended and
a zero-quantity position opened. -/
theorem c4_capital_check_amended (cfg : Config) (s : StratState) (b : Bar) :
    (∀ k bp, s.position = none → b.hour ≤ 2 →
      firstBuildHit b.low (buildPrices cfg (maCompute (dailyUpdate cfg s b) b)) =
        some (k, bp) →
      s.capital < costOf cfg (dailyUpdate cfg s b) b →
      (stepBar cfg s b).trade_log = s.trade_log ∧ (stepBar cfg s b).position = none) ∧
    (∀ k bp, s.position = none → b.hour ≤ 2 →
      firstBuildHit b.low (buildPrices cfg (maCompute (dailyUpdate cfg s b) b)) =
        some (k, bp) →
      qtyOf cfg (dailyUpdate cfg s b) b = 0 → 0 ≤ s.capital →
      (stepBar cfg s b).trade_log = s.trade_log ++
        [{ time := b.time, signal_type := Side.buy, price := min bp b.low
         , quantity := 0, level := k + 1 }] ∧
      ∃ p2, (stepBar cfg s b).position = some p2 ∧ p2.qty = 0) := by
  constructor
  · intro k bp hpos hhour hhit hcost
    have h0pos : (dailyUpdate cfg s b).position = none := by
      rw [dailyUpdate_position, hpos]
    have hbuy : buyPhase cfg (dailyUpdate cfg s b) b (maCompute (dailyUpdate cfg s b) b) =
        dailyUpdate cfg s b := by
      rw [buyPhase_eq, if_pos ⟨h0pos, hhour⟩, if_neg]
      rw [dailyUpdate_capital]
      exact not_le_of_lt hcost
    have hsell : sellPhase cfg (dailyUpdate cfg s b) b = dailyUpdate cfg s b := by
      simp only [sellPhase_eq, h0pos]
    rw [stepBar_flat_eq, hbuy, hsell, finishBar_trade_log, finishBar_position]
    exact ⟨dailyUpdate_trade_log cfg s b, h0pos⟩
  · intro k bp hpos hhour hhit hq0 hcap
    have hcost : costOf cfg (dailyUpdate cfg s b) b ≤ s.capital := by
      rw [costOf, hq0, zero_mul]
      exact hcap
    obtain ⟨hlog, hposn, -, -⟩ := stepBar_entry cfg s b k bp hpos hhour hhit hcost
    rw [hq0] at hlog hposn
    exact ⟨hlog, ⟨_, hposn, rfl⟩⟩

/-! ### Concrete ladder evaluations -/

theorem buildPrices_default_100 :
    buildPrices defaultConfig 100 = [99, 989/10, 494/5, 987/10, 493/5] := by
  rw [buildPrices]
  rw [show List.range defaultConfig.build_levels = [0, 1, 2, 3, 4] from rfl]
  simp only [List.map_cons, List.map_nil]
  rw [round2_eval _ 9900 (by norm_num [defaultConfig]) (by norm_num [defaultConfig]),
      round2_eval _ 9890 (by norm_num [defaultConfig]) (by norm_num [defaultConfig]),
      round2_eval _ 9880 (by norm_num [defaultConfig]) (by norm_num [defaultConfig]),
      round2_eval _ 9870 (by norm_num [defaultConfig]) (by norm_num [defaultConfig]),
      round2_eval _ 9860 (by norm_num [defaultConfig]) (by norm_num [defaultConfig])]
  norm_num

theorem profitPrices_default_100 :
    profitPrices defaultConfig 100 = [1001/10, 501/5, 1003/10, 502/5, 201/2] := by
  rw [profitPrices]
  rw [show List.range defaultConfig.profit_levels = [0, 1, 2, 3, 4] from rfl]
  simp only [List.map_cons, List.map_nil]
  rw [round2_eval _ 10010 (by norm_num [defaultConfig]) (by norm_num [defaultConfig]),
      round2_eval _ 10020 (by norm_num [defaultConfig]) (by norm_num [defaultConfig]),
      round2_eval _ 10030 (by norm_num [defaultConfig]) (by norm_num [defaultConfig]),
      round2_eval _ 10040 (by norm_num [defaultConfig]) (by norm_num [defaultConfig]),
      round2_eval _ 10050 (by norm_num [defaultConfig]) (by norm_num [defaultConfig])]
  norm_num

theorem buildPrices_default_1 :
    buildPrices defaultConfig 1 = [99/100, 99/100, 99/100, 99/100, 99/100] := by
  rw [buildPrices]
  rw [show List.range defaultConfig.build_levels = [0, 1, 2, 3, 4] from rfl]
  simp only [List.map_cons, List.map_nil]
  rw [round2_eval _ 99 (by norm_num [defaultConfig]) (by norm_num [defaultConfig]),
      round2_eval _ 99 (by norm_num [defaultConfig]) (by norm_num [defaultConfig]),
      round2_eval _ 99 (by norm_num [defaultConfig]) (by norm_num [defaultConfig]),
      round2_eval _ 99 (by norm_num [defaultConfig]) (by norm_num [defaultConfig]),
      round2_eval _ 99 (by norm_num [defaultConfig]) (by norm_num [defaultConfig])]
  norm_num

theorem profitPrices_default_1 :
    profitPrices defaultConfig 1 = [1, 1, 1, 1, 101/100] := by
  rw [profitPrices]
  rw [show List.range defaultConfig.profit_levels = [0, 1, 2, 3, 4] from rfl]
  simp only [List.map_cons, List.map_nil]
  rw [round2_eval _ 100 (by norm_num [defaultConfig]) (by norm_num [defaultConfig]),
      round2_eval _ 100 (by norm_num [defaultConfig]) (by norm_num [defaultConfig]),
      round2_eval _ 100 (by norm_num [defaultConfig]) (by norm_num [defaultConfig]),
      round2_eval _ 100 (by norm_num [defaultConfig]) (by norm_num [defaultConfig]),
      round2_eval _ 101 (by norm_num [defaultConfig]) (by norm_num [defaultConfig])]
  norm_num

/-- C8 counterexample: at ma14 = 1 (which is > 0) the five build-ladder
prices all round to 0.99 and the first four profit-ladder prices all
round to 1.00, so after the 2-decimal rounding the build ladder is not
strictly decreasing and the profit ladder is not strictly increasing. -/
theorem c8_counterexample :
    (0 : ℚ) < 1 ∧
    buildPrices defaultConfig 1 = [99/100, 99/100, 99/100, 99/100, 99/100] ∧
    ¬ List.Chain' (· > ·) (buildPrices defaultConfig 1) ∧
    ¬ List.Chain' (· < ·) (profitPrices defaultConfig 1) := by
  refine ⟨by norm_num, buildPrices_default_1, ?_, ?_⟩
  · rw [buildPrices_default_1]
    intro hcon
    rw [List.chain'_cons] at hcon
    exact absurd hcon.1 (by norm_num)
  · rw [profitPrices_default_1]
    intro hcon
    rw [List.chain'_cons] at hcon
    exact absurd hcon.1 (by norm_num)

/-- C8 (amended): for the source's configuration and any positive ma14,
the rounded build-ladder prices are non-increasing in the level index and
the rounded profit-ladder prices are non-decreasing; the strict versions
claimed originally fail once rounding collapses adjacent levels (see the
counterexample at ma14 = 1). -/
theorem c8_ladder_monotone_amended (ma : ℚ) (hma : 0 < ma) :
    List.Chain' (· ≥ ·) (buildPrices defaultConfig ma) ∧
    List.Chain' (· ≤ ·) (profitPrices defaultConfig ma) := by
  constructor
  · rw [buildPrices]
    rw [show List.range defaultConfig.build_levels = [0, 1, 2, 3, 4] from rfl]
    simp only [List.map_cons, List.map_nil, List.chain'_cons, List.chain'_singleton]
    refine ⟨round2_mono ?_, round2_mono ?_, round2_mono ?_, round2_mono ?_, trivial⟩ <;>
      · simp only [defaultConfig]
        push_cast
        nlinarith
  · rw [profitPrices]
    rw [show List.range defaultConfig.profit_levels = [0, 1, 2, 3, 4] from rfl]
    simp only [List.map_cons, List.map_nil, List.chain'_cons, List.chain'_singleton]
    refine ⟨round2_mono ?_, round2_mono ?_, round2_mono ?_, round2_mono ?_, trivial⟩ <;>
      · simp only [defaultConfig]
        push_cast
        nlinarith

/-- Witness for the amended C8 at ma14 = 100. -/
theorem c8_ladder_monotone_amended_witness :
    (0 : ℚ) < 100 ∧
    List.Chain' (· ≥ ·) (buildPrices defaultConfig 100) ∧
    List.Chain' (· ≤ ·) (profitPrices defaultConfig 100) :=
  ⟨by norm_num, c8_ladder_monotone_amended 100 (by norm_num)⟩

/-! ### Concrete per-bar evaluations -/

theorem dailyUpdate_cx1 : dailyUpdate defaultConfig cxState1 bEntry = cxState1 := by
  rw [dailyUpdate, if_neg]
  simp [cxState1, bEntry]

theorem dailyUpdate_zq : dailyUpdate defaultConfig zeroQtyState bEntry = zeroQtyState := by
  rw [dailyUpdate, if_neg]
  simp [zeroQtyState, bEntry]

theorem maCompute_cx1 : maCompute cxState1 bEntry = 100 := rfl

theorem maCompute_zq : maCompute zeroQtyState bEntry = 100 := rfl

theorem firstBuildHit_95_100 :
    firstBuildHit (95 : ℚ) [99, 989/10, 494/5, 987/10, 493/5] = some (0, 99) := by
  rw [firstBuildHit, firstBuildHitAux, if_pos]
  norm_num

/-- C1 counterexample: a flat state with zero available capital, a bar at
hour 1 whose low 95 is reached by the first build level 99 - the claim's
premises hold (no position, hour at most 2, a level price at least the
low), yet no entry occurs on the bar, because the entry cost 4000 exceeds
the available capital 0, a condition the claim omits. -/
theorem c1_counterexample :
    cxState1.position = none ∧ bEntry.hour ≤ 2 ∧
    (∃ q ∈ buildPrices defaultConfig
        (maCompute (dailyUpdate defaultConfig cxState1 bEntry) bEntry), bEntry.low ≤ q) ∧
    (stepBar defaultConfig cxState1 bEntry).trade_log = [] ∧
    (stepBar defaultConfig cxState1 bEntry).position = none := by
  have hbuy : buyPhase defaultConfig cxState1 bEntry (maCompute cxState1 bEntry) =
      cxState1 := by
    rw [buyPhase_eq, if_pos ⟨rfl, by norm_num [bEntry]⟩, if_neg]
    norm_num [costOf, qtyOf, cxState1, bEntry, defaultConfig]
  have hsell : sellPhase defaultConfig cxState1 bEntry = cxState1 := by
    simp only [sellPhase_eq, show cxState1.position = none from rfl]
  refine ⟨rfl, by norm_num [bEntry], ?_, ?_, ?_⟩
  · rw [dailyUpdate_cx1, maCompute_cx1, buildPrices_default_100]
    exact ⟨99, by simp, by norm_num [bEntry]⟩
  · rw [stepBar_flat_eq, dailyUpdate_cx1, hbuy, hsell, finishBar_trade_log]
    rfl
  · rw [stepBar_flat_eq, dailyUpdate_cx1, hbuy, hsell, finishBar_position]
    rfl

/-- Witness for the amended C1: from the initial state, a bar at hour 1
with low 95 enters at the first build level (price 99, fill 95). -/
theorem c1_entry_first_level_amended_witness :
    (initState defaultConfig).position = none ∧ bEntry.hour ≤ 2 ∧
    firstBuildHit bEntry.low (buildPrices defaultConfig
      (maCompute (dailyUpdate defaultConfig (initState defaultConfig) bEntry) bEntry)) =
      some (0, 99) ∧
    costOf defaultConfig (dailyUpdate defaultConfig (initState defaultConfig) bEntry) bEntry ≤
      (initState defaultConfig).capital ∧
    ((stepBar defaultConfig (initState defaultConfig) bEntry).trade_log =
      (initState defaultConfig).trade_log ++
      [{ time := bEntry.time, signal_type := Side.buy, price := min 99 bEntry.low
       , quantity := qtyOf defaultConfig
           (dailyUpdate defaultConfig (initState defaultConfig) bEntry) bEntry
       , level := 0 + 1 }] ∧
     (stepBar defaultConfig (initState defaultConfig) bEntry).position =
       some { buy_price := min 99 bEntry.low, buy_level := 0 + 1
            , qty := qtyOf defaultConfig
                (dailyUpdate defaultConfig (initState defaultConfig) bEntry) bEntry
            , date := bEntry.date
            , profit_prices := profitPrices defaultConfig
                (maCompute (dailyUpdate defaultConfig (initState defaultConfig) bEntry) bEntry)
            , entry_bar := (initState defaultConfig).bar_index
            , entry_hour := bEntry.hour } ∧
     (stepBar defaultConfig (initState defaultConfig) bEntry).capital =
       (initState defaultConfig).capital -
         costOf defaultConfig (dailyUpdate defaultConfig (initState defaultConfig) bEntry) bEntry ∧
     min (99 : ℚ) bEntry.low = bEntry.low) := by
  have hma : maCompute (dailyUpdate defaultConfig (initState defaultConfig) bEntry) bEntry =
      100 := by
    rw [maCompute, dailyUpdate_bar_index]
    norm_num [initState, bEntry, defaultConfig]
  have hd : (dailyUpdate defaultConfig (initState defaultConfig) bEntry).daily_capital =
      20000 := by
    rw [dailyUpdate_daily_capital, if_neg (by simp [initState])]
    norm_num [initState, defaultConfig]
  have hhit : firstBuildHit bEntry.low (buildPrices defaultConfig
      (maCompute (dailyUpdate defaultConfig (initState defaultConfig) bEntry) bEntry)) =
      some (0, 99) := by
    rw [hma, buildPrices_default_100]
    rw [show bEntry.low = (95:ℚ) from rfl]
    exact firstBuildHit_95_100
  have hcost : costOf defaultConfig
      (dailyUpdate defaultConfig (initState defaultConfig) bEntry) bEntry ≤
      (initState defaultConfig).capital := by
    rw [costOf, qtyOf, hd]
    norm_num [initState, bEntry, defaultConfig]
  exact ⟨rfl, by norm_num [bEntry], hhit, hcost,
    (c1_entry_first_level_amended defaultConfig (initState defaultConfig) bEntry).1
      0 99 rfl (by norm_num [bEntry]) hhit hcost⟩

/-- C4 counterexample: a flat state whose daily capital is zero makes the
sizing rule compute quantity zero at the matched first level; contrary to
the claim, the entry is not suppressed - cost 0 passes the capital check
and a buy signal with quantity 0 is appended and a position opened. -/
theorem c4_counterexample :
    zeroQtyState.position = none ∧ bEntry.hour ≤ 2 ∧
    firstBuildHit bEntry.low (buildPrices defaultConfig
      (maCompute (dailyUpdate defaultConfig zeroQtyState bEntry) bEntry)) = some (0, 99) ∧
    qtyOf defaultConfig (dailyUpdate defaultConfig zeroQtyState bEntry) bEntry = 0 ∧
    (stepBar defaultConfig zeroQtyState bEntry).trade_log =
      [{ time := 0, signal_type := Side.buy, price := 95, quantity := 0, level := 1 }] ∧
    (stepBar defaultConfig zeroQtyState bEntry).position ≠ none := by
  have hhit : firstBuildHit bEntry.low (buildPrices defaultConfig
      (maCompute (dailyUpdate defaultConfig zeroQtyState bEntry) bEntry)) = some (0, 99) := by
    rw [dailyUpdate_zq, maCompute_zq, buildPrices_default_100]
    rw [show bEntry.low = (95:ℚ) from rfl]
    exact firstBuildHit_95_100
  have hq0 : qtyOf defaultConfig (dailyUpdate defaultConfig zeroQtyState bEntry) bEntry = 0 := by
    rw [dailyUpdate_zq]
    norm_num [qtyOf, zeroQtyState, bEntry, defaultConfig]
  have hcost : costOf defaultConfig (dailyUpdate defaultConfig zeroQtyState bEntry) bEntry ≤
      zeroQtyState.capital := by
    rw [costOf, hq0, zero_mul]
    norm_num [zeroQtyState]
  obtain ⟨hlog, hpos2, -, -⟩ :=
    stepBar_entry defaultConfig zeroQtyState bEntry 0 99 rfl (by norm_num [bEntry]) hhit hcost
  refine ⟨rfl, by norm_num [bEntry], hhit, hq0, ?_, ?_⟩
  · rw [hlog, hq0]
    norm_num [zeroQtyState, bEntry]
  · rw [hpos2]
    simp

/-- Witness for the amended C4: the capital-insufficiency branch at the
zero-capital state and the zero-quantity branch at the zero-daily-capital
state. -/
theorem c4_capital_check_amended_witness :
    (cxState1.position = none ∧ bEntry.hour ≤ 2 ∧
     firstBuildHit bEntry.low (buildPrices defaultConfig
       (maCompute (dailyUpdate defaultConfig cxState1 bEntry) bEntry)) = some (0, 99) ∧
     cxState1.capital < costOf defaultConfig (dailyUpdate defaultConfig cxState1 bEntry) bEntry ∧
     (stepBar defaultConfig cxState1 bEntry).trade_log = cxState1.trade_log ∧
     (stepBar defaultConfig cxState1 bEntry).position = none) ∧
    (zeroQtyState.position = none ∧
     qtyOf defaultConfig (dailyUpdate defaultConfig zeroQtyState bEntry) bEntry = 0 ∧
     0 ≤ zeroQtyState.capital ∧
     (stepBar defaultConfig zeroQtyState bEntry).trade_log = zeroQtyState.trade_log ++
       [{ time := bEntry.time, signal_type := Side.buy, price := min 99 bEntry.low
        , quantity := 0, level := 0 + 1 }] ∧
     ∃ p2, (stepBar defaultConfig zeroQtyState bEntry).position = some p2 ∧ p2.qty = 0) := by
  have hhit1 : firstBuildHit bEntry.low (buildPrices defaultConfig
      (maCompute (dailyUpdate defaultConfig cxState1 bEntry) bEntry)) = some (0, 99) := by
    rw [dailyUpdate_cx1, maCompute_cx1, buildPrices_default_100]
    rw [show bEntry.low = (95:ℚ) from rfl]
    exact firstBuildHit_95_100
  have hcost1 : cxState1.capital <
      costOf defaultConfig (dailyUpdate defaultConfig cxState1 bEntry) bEntry := by
    rw [dailyUpdate_cx1]
    norm_num [costOf, qtyOf, cxState1, bEntry, defaultConfig]
  have hhit2 : firstBuildHit bEntry.low (buildPrices defaultConfig
      (maCompute (dailyUpdate defaultConfig zeroQtyState bEntry) bEntry)) = some (0, 99) := by
    rw [dailyUpdate_zq, maCompute_zq, buildPrices_default_100]
    rw [show bEntry.low = (95:ℚ) from rfl]
    exact firstBuildHit_95_100
  have hq0 : qtyOf defaultConfig (dailyUpdate defaultConfig zeroQtyState bEntry) bEntry = 0 := by
    rw [dailyUpdate_zq]
    norm_num [qtyOf, zeroQtyState, bEntry, defaultConfig]
  constructor
  · obtain ⟨hl, hp⟩ := (c4_capital_check_amended defaultConfig cxState1 bEntry).1
      0 99 rfl (by norm_num [bEntry]) hhit1 hcost1
    exact ⟨rfl, by norm_num [bEntry], hhit1, hcost1, hl, hp⟩
  · obtain ⟨hl, hp⟩ := (c4_capital_check_amended defaultConfig zeroQtyState bEntry).2
      0 99 rfl (by norm_num [bEntry]) hhit2 hq0 (by norm_num [zeroQtyState])
    exact ⟨rfl, hq0, by norm_num [zeroQtyState], hl, hp⟩

/-- Witness for C2: the open position entered at 95 on bar 0 is closed on
bar 1 by a high of 100.25 at the first frozen profit level 100.10. -/
theorem c2_profit_ladder_exit_witness :
    sOpen.position = some posOpen ∧ posOpen.entry_bar < sOpen.bar_index ∧
    (∃ q ∈ posOpen.profit_prices, q ≤ bExitHit.high) ∧
    (∃ k pp, firstProfitHit bExitHit.high posOpen.profit_prices = some (k, pp) ∧
      posOpen.profit_prices.get? k = some pp ∧ pp ≤ bExitHit.high ∧
      (∀ j q, j < k → posOpen.profit_prices.get? j = some q → bExitHit.high < q) ∧
      (stepBar defaultConfig sOpen bExitHit).capital = sOpen.capital + posOpen.qty * pp ∧
      (stepBar defaultConfig sOpen bExitHit).trade_log = sOpen.trade_log ++
        [{ time := bExitHit.time, signal_type := Side.sell, price := pp
         , quantity := posOpen.qty, level := k + 1 }] ∧
      (stepBar defaultConfig sOpen bExitHit).position = none) := by
  have hex : ∃ q ∈ posOpen.profit_prices, q ≤ bExitHit.high := by
    refine ⟨1001/10, ?_, by norm_num [posOpen, bExitHit]⟩
    simp [posOpen]
  exact ⟨rfl, by decide,  hex,
    (c2_profit_ladder_exit defaultConfig sOpen bExitHit posOpen rfl).1 (by decide) hex⟩

/-- Witness for C3: with no profit level reached at a high of 99, the
hour-5 bar closes the position at 96 (profit over entry 95), while an
hour-5 bar closing at 94 (a loss) leaves the position open. -/
theorem c3_timeout_exit_witness :
    (sOpen.position = some posOpen ∧ posOpen.entry_bar < sOpen.bar_index ∧
     (∀ q ∈ posOpen.profit_prices, bExitTimeoutWin.high < q) ∧
     (4 ≤ bExitTimeoutWin.hour ∧ bExitTimeoutWin.hour < 22) ∧
     0 < (bExitTimeoutWin.close - posOpen.buy_price) / posOpen.buy_price ∧
     (stepBar defaultConfig sOpen bExitTimeoutWin).capital =
       sOpen.capital + bExitTimeoutWin.close * posOpen.qty ∧
     (stepBar defaultConfig sOpen bExitTimeoutWin).trade_log = sOpen.trade_log ++
       [{ time := bExitTimeoutWin.time, signal_type := Side.sell
        , price := bExitTimeoutWin.close, quantity := posOpen.qty, level := 5 }] ∧
     (stepBar defaultConfig sOpen bExitTimeoutWin).position = none) ∧
    ((bExitTimeoutLoss.close - posOpen.buy_price) / posOpen.buy_price ≤ 0 ∧
     (stepBar defaultConfig sOpen bExitTimeoutLoss).capital = sOpen.capital ∧
     (stepBar defaultConfig sOpen bExitTimeoutLoss).trade_log = sOpen.trade_log ∧
     (stepBar defaultConfig sOpen bExitTimeoutLoss).position = some posOpen) := by
  have hnohit1 : ∀ q ∈ posOpen.profit_prices, bExitTimeoutWin.high < q := by
    simp only [posOpen, List.forall_mem_cons]
    norm_num [bExitTimeoutWin]
  have hnohit2 : ∀ q ∈ posOpen.profit_prices, bExitTimeoutLoss.high < q := by
    simp only [posOpen, List.forall_mem_cons]
    norm_num [bExitTimeoutLoss]
  have hpct1 : 0 < (bExitTimeoutWin.close - posOpen.buy_price) / posOpen.buy_price := by
    norm_num [bExitTimeoutWin, posOpen]
  have hpct2 : (bExitTimeoutLoss.close - posOpen.buy_price) / posOpen.buy_price ≤ 0 := by
    norm_num [bExitTimeoutLoss, posOpen]
  constructor
  · obtain ⟨h1, h2, h3⟩ :=
      (c3_timeout_exit defaultConfig sOpen bExitTimeoutWin posOpen rfl (by decide) hnohit1).1
        (by norm_num [bExitTimeoutWin]) hpct1
    exact ⟨rfl, by decide, hnohit1, by norm_num [bExitTimeoutWin], hpct1, h1, h2, h3⟩
  · obtain ⟨h1, h2, h3⟩ :=
      (c3_timeout_exit defaultConfig sOpen bExitTimeoutLoss posOpen rfl (by decide) hnohit2).2
        (Or.inr hpct2)
    exact ⟨hpct2, h1, h2, h3⟩

/-! ### C6: the moving average -/

/-- C6: the `ma14` used on bar `i` of any run equals the mean of the 14
closes at indices i-14 .. i-1 when i >= 14, and the bar's own close when
i < 14. -/
theorem c6_ma14 (cfg : Config) (bars : List Bar) (i : ℕ) (hi : i < bars.length) :
    maUsedAt cfg bars i =
      if 14 ≤ i then (((bars.map Bar.close).drop (i - 14)).take 14).sum / 14
      else (barAt bars i).close := by
  rw [maUsedAt, maCompute, dailyUpdate_bar_index, dailyUpdate_closes]
  rw [prefState_bar_index cfg bars i (le_of_lt hi), prefState_closes cfg bars i (le_of_lt hi)]
  by_cases h14 : 14 ≤ i
  · rw [if_pos h14, if_pos h14]
    rw [List.map_take, List.drop_take, show i - (i - 14) = 14 from by omega,
      List.take_take, min_self]
  · rw [if_neg h14, if_neg h14]

/-- Witness for C6 on a two-bar stream at index 0 (the degenerate
branch). -/
theorem c6_ma14_witness :
    0 < barsTwoDays.length ∧
    maUsedAt defaultConfig barsTwoDays 0 =
      (if 14 ≤ 0 then (((barsTwoDays.map Bar.close).drop (0 - 14)).take 14).sum / 14
       else (barAt barsTwoDays 0).close) :=
  ⟨by norm_num [barsTwoDays], c6_ma14 defaultConfig barsTwoDays 0 (by norm_num [barsTwoDays])⟩

/-! ### C5: the daily risk budget and the sizing rule -/

theorem sellPhase_flat (cfg : Config) (s : StratState) (b : Bar)
    (hp : s.position = none) : sellPhase cfg s b = s := by
  simp only [sellPhase_eq, hp]

theorem buyPhase_cases (cfg : Config) (s : StratState) (b : Bar) (ma : ℚ) :
    buyPhase cfg s b ma = s ∨
    ∃ k bp, s.position = none ∧ b.hour ≤ 2 ∧
      firstBuildHit b.low (buildPrices cfg ma) = some (k, bp) ∧
      costOf cfg s b ≤ s.capital ∧
      buyPhase cfg s b ma = entryState cfg s b (profitPrices cfg ma) s.bar_index k bp := by
  rw [buyPhase_eq]
  by_cases hg : s.position = none ∧ b.hour ≤ 2
  · rw [if_pos hg]
    by_cases hc : costOf cfg s b ≤ s.capital
    · rw [if_pos hc]
      cases hhit : firstBuildHit b.low (buildPrices cfg ma) with
      | none => exact Or.inl rfl
      | some kbp =>
        exact Or.inr ⟨kbp.1, kbp.2, hg.1, hg.2, rfl, hc, rfl⟩
    · rw [if_neg hc]
      exact Or.inl rfl
  · rw [if_neg hg]
    exact Or.inl rfl

theorem log_ne_append (l : List TradeSignal) (sig : TradeSignal) : l ≠ l ++ [sig] := by
  intro hcon
  have := congrArg List.length hcon
  simp at this

theorem step_buy_sig (cfg : Config) (s : StratState) (b : Bar) (sig : TradeSignal)
    (hlog : (stepBar cfg s b).trade_log = s.trade_log ++ [sig])
    (hside : sig.signal_type = Side.buy) :
    sig.quantity = min (stepBar cfg s b).daily_capital cfg.initial_capital *
      cfg.max_position_fraction / sig.price := by
  cases hp : s.position with
  | some p =>
    rw [stepBar_open_eq cfg s b p hp, finishBar_trade_log] at hlog
    rcases sellPhase_log_cases cfg (dailyUpdate cfg s b) b with ⟨hl, -⟩ | ⟨sig2, hl, hs2, -⟩
    · rw [hl, dailyUpdate_trade_log] at hlog
      exact absurd hlog (log_ne_append _ _)
    · rw [hl, dailyUpdate_trade_log] at hlog
      have hss : sig2 = sig := by
        have := List.append_cancel_left hlog
        injection this
      rw [← hss, hs2] at hside
      exact absurd hside (by simp)
  | none =>
    rw [stepBar_flat_eq, finishBar_trade_log] at hlog
    have h0pos : (dailyUpdate cfg s b).position = none := by
      rw [dailyUpdate_position, hp]
    rcases buyPhase_cases cfg (dailyUpdate cfg s b) b
        (maCompute (dailyUpdate cfg s b) b) with hb | ⟨k, bp, -, -, -, -, hb⟩
    · rw [hb, sellPhase_flat cfg _ b h0pos, dailyUpdate_trade_log] at hlog
      exact absurd hlog (log_ne_append _ _)
    · have hsell : sellPhase cfg (entryState cfg (dailyUpdate cfg s b) b
          (profitPrices cfg (maCompute (dailyUpdate cfg s b) b))
          (dailyUpdate cfg s b).bar_index k bp) b =
          entryState cfg (dailyUpdate cfg s b) b
            (profitPrices cfg (maCompute (dailyUpdate cfg s b) b))
            (dailyUpdate cfg s b).bar_index k bp := by
        simp only [sellPhase_eq, entryState_position, entryState_bar_index]
        rw [if_neg (lt_irrefl _)]
      rw [hb, hsell] at hlog
      have hlog2 : (dailyUpdate cfg s b).trade_log ++
          [{ time := b.time, signal_type := Side.buy, price := min bp b.low
           , quantity := min (dailyUpdate cfg s b).daily_capital cfg.initial_capital *
               cfg.max_position_fraction / min bp b.low
           , level := k + 1 }] = s.trade_log ++ [sig] := hlog
      rw [dailyUpdate_trade_log] at hlog2
      have hss := List.append_cancel_left hlog2
      injection hss with h1 h2
      rw [← h1, stepBar_daily_capital]

/-- Monotone dates give monotone dates at indices. -/
theorem datesMono_le (bars : List Bar) (h : DatesMono bars) (i j : ℕ)
    (hij : i ≤ j) (hj : j < bars.length) :
    (barAt bars i).date ≤ (barAt bars j).date := by
  rcases eq_or_lt_of_le hij with rfl | hlt
  · exact le_refl _
  · haveI : IsTrans Bar (fun a c : Bar => a.date ≤ c.date) :=
      ⟨fun _ _ _ h1 h2 => le_trans h1 h2⟩
    have hpw : List.Pairwise (fun a c : Bar => a.date ≤ c.date) bars :=
      List.chain'_iff_pairwise.mp h
    rw [barAt, barAt, List.getD_eq_getElem _ _ (by omega), List.getD_eq_getElem _ _ hj]
    exact List.pairwise_iff_getElem.mp hpw i j (by omega) hj hlt

/-- C5: in a date-ordered run, `daily_capital` is recomputed exactly at
the first bar bearing each distinct calendar date, as
initial_capital + 0.5 * (capital - initial_capital) with `capital` the
cumulative capital entering that bar, and is unchanged on every other
bar of the date; and every buy signal's quantity equals
min(daily_capital, initial_capital) * max_position_fraction divided by
its fill price. -/
theorem c5_daily_capital (cfg : Config) (bars : List Bar) (hmono : DatesMono bars) :
    (∀ i, i < bars.length →
      ((∀ j, j < i → (barAt bars j).date ≠ (barAt bars i).date) →
        (prefState cfg bars (i+1)).daily_capital =
          cfg.initial_capital +
            ((prefState cfg bars i).capital - cfg.initial_capital) * (1/2)) ∧
      ((∃ j, j < i ∧ (barAt bars j).date = (barAt bars i).date) →
        (prefState cfg bars (i+1)).daily_capital =
          (prefState cfg bars i).daily_capital)) ∧
    (∀ s b sig, (stepBar cfg s b).trade_log = s.trade_log ++ [sig] →
      sig.signal_type = Side.buy →
      sig.quantity = min (stepBar cfg s b).daily_capital cfg.initial_capital *
        cfg.max_position_fraction / sig.price) := by
  constructor
  · intro i hi
    constructor
    · intro hfirst
      rw [prefState_succ cfg bars i hi, stepBar_daily_capital, dailyUpdate_daily_capital,
        if_neg]
      cases i with
      | zero =>
        rw [prefState_zero]
        simp [initState]
      | succ j =>
        rw [prefState_current_date cfg bars (j+1) (by omega) (le_of_lt hi)]
        intro hcon
        injection hcon with hcon2
        exact hfirst j (by omega) (by simpa using hcon2)
    · rintro ⟨j, hji, hdate⟩
      have hprev : (barAt bars (i-1)).date = (barAt bars i).date := by
        refine le_antisymm (datesMono_le bars hmono (i-1) i (by omega) hi) ?_
        rw [← hdate]
        exact datesMono_le bars hmono j (i-1) (by omega) (by omega)
      rw [prefState_succ cfg bars i hi, stepBar_daily_capital, dailyUpdate_daily_capital,
        if_pos]
      rw [prefState_current_date cfg bars i (by omega) (le_of_lt hi), hprev]
  · exact fun s b sig => step_buy_sig cfg s b sig

/-- Witness for C5: crossing from date 0 to date 1, the state after bar 1
carries the recomputed daily capital. -/
theorem c5_daily_capital_witness :
    DatesMono barsTwoDays ∧ 1 < barsTwoDays.length ∧
    (∀ j, j < 1 → (barAt barsTwoDays j).date ≠ (barAt barsTwoDays 1).date) ∧
    (prefState defaultConfig barsTwoDays 2).daily_capital =
      defaultConfig.initial_capital +
        ((prefState defaultConfig barsTwoDays 1).capital -
          defaultConfig.initial_capital) * (1/2) := by
  have hmono : DatesMono barsTwoDays := by
    rw [DatesMono, barsTwoDays]
    rw [List.chain'_cons]
    exact ⟨by norm_num [bDay0, bDay1], List.chain'_singleton _⟩
  have hlen : 1 < barsTwoDays.length := by norm_num [barsTwoDays]
  have hfirst : ∀ j, j < 1 → (barAt barsTwoDays j).date ≠ (barAt barsTwoDays 1).date := by
    intro j hj
    have hj0 : j = 0 := by omega
    subst hj0
    show bDay0.date ≠ bDay1.date
    norm_num [bDay0, bDay1]
  exact ⟨hmono, hlen, hfirst,
    ((c5_daily_capital defaultConfig barsTwoDays hmono).1 1 hlen).1 hfirst⟩

/-! ### C10: the shape of the trade log -/

theorem sellPhase_entryState (cfg : Config) (s : StratState) (b : Bar) (snap : List ℚ)
    (k : ℕ) (bp : ℚ) :
    sellPhase cfg (entryState cfg s b snap s.bar_index k bp) b =
      entryState cfg s b snap s.bar_index k bp := by
  simp only [sellPhase_eq, entryState_position, entryState_bar_index]
  rw [if_neg (lt_irrefl _)]

theorem sellPhase_cases_qty (cfg : Config) (s : StratState) (b : Bar) (p : Position)
    (hp : s.position = some p) :
    sellPhase cfg s b = s ∨
    ∃ sig, (sellPhase cfg s b).trade_log = s.trade_log ++ [sig] ∧
      sig.signal_type = Side.sell ∧ sig.quantity = p.qty ∧
      (sellPhase cfg s b).position = none := by
  simp only [sellPhase_eq, hp]
  split
  · split
    · exact Or.inr ⟨_, rfl, rfl, rfl, rfl⟩
    · split
      · split
        · exact Or.inr ⟨_, rfl, rfl, rfl, rfl⟩
        · exact Or.inl rfl
      · exact Or.inl rfl
  · exact Or.inl rfl

theorem stepBar_logOk (cfg : Config) (s : StratState) (b : Bar)
    (h : LogOk s.trade_log (s.position.map Position.qty)) :
    LogOk (stepBar cfg s b).trade_log ((stepBar cfg s b).position.map Position.qty) := by
  cases hp : s.position with
  | some p =>
    rw [hp] at h
    simp only [Option.map_some'] at h
    rw [stepBar_open_eq cfg s b p hp, finishBar_trade_log, finishBar_position]
    rcases sellPhase_cases_qty cfg (dailyUpdate cfg s b) b p
        (by rw [dailyUpdate_position, hp]) with heq | ⟨sig, hl, hs, hq, hpos⟩
    · rw [heq, dailyUpdate_trade_log, dailyUpdate_position, hp]
      simpa using h
    · rw [hl, dailyUpdate_trade_log, hpos]
      simp only [Option.map_none']
      exact LogOk.sell _ sig p.qty h hs hq
  | none =>
    rw [hp] at h
    simp only [Option.map_none'] at h
    have h0pos : (dailyUpdate cfg s b).position = none := by
      rw [dailyUpdate_position, hp]
    rw [stepBar_flat_eq, finishBar_trade_log, finishBar_position]
    rcases buyPhase_cases cfg (dailyUpdate cfg s b) b
        (maCompute (dailyUpdate cfg s b) b) with hb | ⟨k, bp, -, -, -, -, hb⟩
    · rw [hb, sellPhase_flat cfg _ b h0pos, dailyUpdate_trade_log, dailyUpdate_position, hp]
      simpa using h
    · rw [hb, sellPhase_entryState]
      show LogOk ((dailyUpdate cfg s b).trade_log ++ _) _
      rw [dailyUpdate_trade_log]
      simp only [entryState_position, Option.map_some']
      exact LogOk.buy _ _ h rfl
  
theorem stepBar_log_length (cfg : Config) (s : StratState) (b : Bar) :
    (stepBar cfg s b).trade_log.length ≤ s.trade_log.length + 1 := by
  cases hp : s.position with
  | some p =>
    rw [stepBar_open_eq cfg s b p hp, finishBar_trade_log]
    rcases sellPhase_cases_qty cfg (dailyUpdate cfg s b) b p
        (by rw [dailyUpdate_position, hp]) with heq | ⟨sig, hl, -, -, -⟩
    · rw [heq, dailyUpdate_trade_log]
      omega
    · rw [hl, dailyUpdate_trade_log]
      simp
  | none =>
    have h0pos : (dailyUpdate cfg s b).position = none := by
      rw [dailyUpdate_position, hp]
    rw [stepBar_flat_eq, finishBar_trade_log]
    rcases buyPhase_cases cfg (dailyUpdate cfg s b) b
        (maCompute (dailyUpdate cfg s b) b) with hb | ⟨k, bp, -, -, -, -, hb⟩
    · rw [hb, sellPhase_flat cfg _ b h0pos, dailyUpdate_trade_log]
      omega
    · rw [hb, sellPhase_entryState]
      show ((dailyUpdate cfg s b).trade_log ++ _).length ≤ _
      rw [dailyUpdate_trade_log]
      simp

/-- C10: in every run from the initial (flat) state, the trade log read
left to right strictly alternates buy, sell, buy, sell, ... beginning
with a buy, every sell's quantity equals the quantity of the immediately
preceding buy (positions close in full), an open position's quantity is
the trailing unmatched buy's quantity, and each bar appends at most one
trade signal. -/
theorem c10_alternation (cfg : Config) (bars : List Bar) :
    (∀ i, LogOk (prefState cfg bars i).trade_log
      ((prefState cfg bars i).position.map Position.qty)) ∧
    (∀ i, (prefState cfg bars (i+1)).trade_log.length ≤
      (prefState cfg bars i).trade_log.length + 1) := by
  constructor
  · refine prefState_induction cfg bars
      (fun st => LogOk st.trade_log (st.position.map Position.qty)) ?_ ?_
    · show LogOk [] (Option.map _ none)
      simpa using LogOk.nil
    · intro s b _ h
      exact stepBar_logOk cfg s b h
  · intro i
    by_cases hi : i < bars.length
    · rw [prefState_succ cfg bars i hi]
      exact stepBar_log_length cfg _ _
    · rw [prefState_succ_of_le cfg bars i (by omega)]
      omega

/-! ### C7: capital non-negativity -/

theorem maCompute_nonneg (s : StratState) (b : Bar)
    (hc : ∀ c ∈ s.closes, 0 ≤ c) (hb : 0 ≤ b.close) : 0 ≤ maCompute s b := by
  rw [maCompute]
  split
  · apply div_nonneg _ (by norm_num)
    apply List.sum_nonneg
    intro x hx
    exact hc x (List.drop_subset _ _ (List.take_subset _ _ hx))
  · exact hb

theorem profitPrices_nonneg (cfg : Config) (ma : ℚ) (hma : 0 ≤ ma)
    (hs : 0 ≤ cfg.sell_rise) (hl : 0 ≤ cfg.level_spread) :
    ∀ q ∈ profitPrices cfg ma, 0 ≤ q := by
  intro q hq
  rw [profitPrices] at hq
  obtain ⟨j, -, rfl⟩ := List.mem_map.mp hq
  apply round2_nonneg
  have hj : (0:ℚ) ≤ (j:ℚ) := by positivity
  have h1 : (0:ℚ) ≤ 1 + cfg.sell_rise := by linarith
  have h2 : (0:ℚ) ≤ (j:ℚ) * cfg.level_spread := mul_nonneg hj hl
  have h3 : (0:ℚ) ≤ 1 + (j:ℚ) * cfg.level_spread := by linarith
  exact mul_nonneg (mul_nonneg hma h1) h3

theorem sellPhase_cases_full (cfg : Config) (s : StratState) (b : Bar) (p : Position)
    (hp : s.position = some p) :
    sellPhase cfg s b = s ∨
    (∃ k pp, pp ∈ p.profit_prices ∧ sellPhase cfg s b = exitState s b p k pp) ∨
    sellPhase cfg s b = timeoutExitState s b p := by
  simp only [sellPhase_eq, hp]
  split
  · split
    · next k pp heq =>
      exact Or.inr (Or.inl ⟨k, pp, (firstProfitHit_mem heq).1, rfl⟩)
    · split
      · split
        · exact Or.inr (Or.inr rfl)
        · exact Or.inl rfl
      · exact Or.inl rfl
  · exact Or.inl rfl

theorem dailyUpdate_inv7 (cfg : Config) (s : StratState) (b : Bar)
    (hcfg : nonnegConfig cfg) (h : Inv7 s) : Inv7 (dailyUpdate cfg s b) := by
  obtain ⟨h1, h2, h3, h4⟩ := h
  refine ⟨?_, ?_, ?_, ?_⟩
  · rw [dailyUpdate_capital]; exact h1
  · rw [dailyUpdate_daily_capital]
    split
    · exact h2
    · have := hcfg.1
      linarith
  · rw [dailyUpdate_closes]; exact h3
  · intro p hp
    rw [dailyUpdate_position] at hp
    exact h4 p hp

theorem buyPhase_inv7 (cfg : Config) (s : StratState) (b : Bar) (ma : ℚ)
    (hcfg : nonnegConfig cfg) (hma : 0 ≤ ma) (hlow : 0 < b.low)
    (h : Inv7 s) : Inv7 (buyPhase cfg s b ma) := by
  obtain ⟨h1, h2, h3, h4⟩ := h
  rcases buyPhase_cases cfg s b ma with hb | ⟨k, bp, -, -, hhit, hcost, hb⟩
  · rw [hb]; exact ⟨h1, h2, h3, h4⟩
  · have hmin : min bp b.low = b.low := min_eq_low (firstBuildHit_mem hhit).2
    have hqty : 0 ≤ min s.daily_capital cfg.initial_capital *
        cfg.max_position_fraction / min bp b.low := by
      rw [hmin]
      apply div_nonneg _ (le_of_lt hlow)
      exact mul_nonneg (le_min h2 hcfg.1) hcfg.2.1
    rw [hb]
    refine ⟨?_, h2, h3, ?_⟩
    · show 0 ≤ s.capital - _
      have hcost2 : min s.daily_capital cfg.initial_capital * cfg.max_position_fraction /
          min bp b.low * min bp b.low = costOf cfg s b := by
        rw [hmin]; rfl
      rw [hcost2]
      linarith
    · intro p hp
      rw [entryState_position] at hp
      injection hp with hp2
      rw [← hp2]
      exact ⟨hqty, profitPrices_nonneg cfg ma hma hcfg.2.2.1 hcfg.2.2.2⟩

theorem sellPhase_inv7 (cfg : Config) (s : StratState) (b : Bar)
    (hclose : 0 < b.close) (h : Inv7 s) : Inv7 (sellPhase cfg s b) := by
  obtain ⟨h1, h2, h3, h4⟩ := h
  cases hp : s.position with
  | none =>
    rw [sellPhase_flat cfg s b hp]
    exact ⟨h1, h2, h3, h4⟩
  | some p =>
    obtain ⟨hq, hpr⟩ := h4 p hp
    rcases sellPhase_cases_full cfg s b p hp with heq | ⟨k, pp, hmem, heq⟩ | heq
    · rw [heq]; exact ⟨h1, h2, h3, h4⟩
    · rw [heq]
      refine ⟨?_, h2, h3, ?_⟩
      · show 0 ≤ s.capital + p.qty * pp
        have := mul_nonneg hq (hpr pp hmem)
        linarith
      · intro p2 hp2
        rw [exitState_position] at hp2
        exact absurd hp2 (by simp)
    · rw [heq]
      refine ⟨?_, h2, h3, ?_⟩
      · show 0 ≤ s.capital + b.close * p.qty
        have := mul_nonneg (le_of_lt hclose) hq
        linarith
      · intro p2 hp2
        exact absurd hp2 (by simp [timeoutExitState])

theorem stepBar_inv7 (cfg : Config) (s : StratState) (b : Bar)
    (hcfg : nonnegConfig cfg) (hwf : wellFormedBar b) (h : Inv7 s) :
    Inv7 (stepBar cfg s b) := by
  have h0 := dailyUpdate_inv7 cfg s b hcfg h
  have hma : 0 ≤ maCompute (dailyUpdate cfg s b) b :=
    maCompute_nonneg _ b h0.2.2.1 (le_of_lt hwf.2.1)
  have h1 := buyPhase_inv7 cfg (dailyUpdate cfg s b) b
    (maCompute (dailyUpdate cfg s b) b) hcfg hma hwf.2.2.2 h0
  have h2 := sellPhase_inv7 cfg _ b hwf.2.1 h1
  obtain ⟨g1, g2, g3, g4⟩ := h2
  rw [stepBar]
  refine ⟨g1, g2, ?_, g4⟩
  intro c hc
  have hc2 : c ∈ (sellPhase cfg (buyPhase cfg (dailyUpdate cfg s b) b
      (maCompute (dailyUpdate cfg s b) b)) b).closes ++ [b.close] := hc
  rcases List.mem_append.mp hc2 with hc3 | hc3
  · exact g3 c hc3
  · rw [List.mem_singleton.mp hc3]
    exact le_of_lt hwf.2.1

/-- C7: for every run over well-formed (positive-price, time-ordered)
bars under the source's non-negative configuration constraints, capital
is non-negative after processing every bar: it is debited only on an
entry whose cost was checked against the available capital, and only
ever credited on exits. -/
theorem c7_capital_nonneg (cfg : Config) (bars : List Bar)
    (hcfg : nonnegConfig cfg) (hwf : ∀ b ∈ bars, wellFormedBar b)
    (hord : TimesMono bars) :
    ∀ i, 0 ≤ (prefState cfg bars i).capital := by
  have hinv : ∀ i, Inv7 (prefState cfg bars i) := by
    refine prefState_induction cfg bars Inv7 ?_ ?_
    · refine ⟨hcfg.1, hcfg.1, ?_, ?_⟩
      · intro c hc
        exact absurd hc (List.not_mem_nil c)
      · intro p hp
        exact absurd hp (by simp [initState])
    · intro s b hb h
      exact stepBar_inv7 cfg s b hcfg (hwf b hb) h
  exact fun i => (hinv i).1

/-- Witness for C7 on the two-bar stream. -/
theorem c7_capital_nonneg_witness :
    nonnegConfig defaultConfig ∧ (∀ b ∈ barsTwoDays, wellFormedBar b) ∧
    TimesMono barsTwoDays ∧
    ∀ i, 0 ≤ (prefState defaultConfig barsTwoDays i).capital := by
  have hcfg : nonnegConfig defaultConfig := by
    norm_num [nonnegConfig, defaultConfig]
  have hwf : ∀ b ∈ barsTwoDays, wellFormedBar b := by
    intro b hb
    rcases List.mem_cons.mp hb with rfl | hb
    · norm_num [wellFormedBar, bDay0]
    · rcases List.mem_cons.mp hb with rfl | hb
      · norm_num [wellFormedBar, bDay1]
      · exact absurd hb (List.not_mem_nil b)
  have hord : TimesMono barsTwoDays := by
    rw [TimesMono, barsTwoDays, List.chain'_cons]
    exact ⟨by norm_num [bDay0, bDay1], List.chain'_singleton _⟩
  exact ⟨hcfg, hwf, hord, c7_capital_nonneg defaultConfig barsTwoDays hcfg hwf hord⟩

/-! ### C9: totality of a bar's evaluation over well-formed input -/

theorem checkedDiv_of_ne (a b : ℚ) (hb : b ≠ 0) : checkedDiv a b = some (a / b) := by
  unfold checkedDiv
  rw [if_neg hb]

theorem buyScanChecked_eq (cfg : Config) (s : StratState) (b : Bar) (snap : List ℚ)
    (i : ℕ) (hlow : b.low ≠ 0) :
    ∀ k l, buyScanChecked cfg s b snap i k l = some (buyScan cfg s b snap i k l)
  | k, [] => by rw [buyScanChecked, buyScan]
  | k, bp :: rest => by
    simp only [buyScanChecked, buyScan]
    by_cases hbp : b.low ≤ bp
    · rw [if_pos hbp, if_pos hbp]
      have hmin : min bp b.low = b.low := min_eq_low hbp
      rw [checkedDiv_of_ne _ _ (by rw [hmin]; exact hlow)]
      rw [Option.some_bind]
      split
      · rfl
      · exact buyScanChecked_eq cfg s b snap i hlow (k+1) rest
    · rw [if_neg hbp, if_neg hbp]
      exact buyScanChecked_eq cfg s b snap i hlow (k+1) rest

theorem buyPhaseChecked_eq (cfg : Config) (s : StratState) (b : Bar) (ma : ℚ)
    (hlow : b.low ≠ 0) :
    buyPhaseChecked cfg s b ma = some (buyPhase cfg s b ma) := by
  rw [buyPhaseChecked, buyPhase]
  split
  · exact buyScanChecked_eq cfg s b (profitPrices cfg ma) s.bar_index hlow 0
      (buildPrices cfg ma)
  · rfl

theorem sellScanChecked_eq (s : StratState) (b : Bar) (p : Position)
    (hbuy : p.buy_price ≠ 0) :
    ∀ k l, sellScanChecked s b p k l = some (sellScan s b p k l)
  | k, [] => by rw [sellScanChecked, sellScan]
  | k, pp :: rest => by
    simp only [sellScanChecked, sellScan]
    by_cases hpp : b.high ≥ pp
    · rw [if_pos hpp, if_pos hpp, checkedDiv_of_ne _ _ hbuy, Option.some_bind]
    · rw [if_neg hpp, if_neg hpp]
      exact sellScanChecked_eq s b p hbuy (k+1) rest

theorem sellPhaseChecked_eq (cfg : Config) (s : StratState) (b : Bar)
    (hpos : PosPricePos s) :
    sellPhaseChecked s b = some (sellPhase cfg s b) := by
  cases hp : s.position with
  | none =>
    rw [sellPhase_flat cfg s b hp]
    simp only [sellPhaseChecked, hp]
  | some p =>
    have hbuy : p.buy_price ≠ 0 := ne_of_gt (hpos p hp)
    simp only [sellPhaseChecked, sellPhase, hp]
    split
    · rw [sellScanChecked_eq s b p hbuy 0 p.profit_prices, Option.some_bind]
      split
      · rfl
      · rw [checkedDiv_of_ne _ _ hbuy]
        split
        · rw [Option.some_bind]
          split
          · rfl
          · rfl
        · rfl
    · rfl

theorem buyPhase_posPricePos (cfg : Config) (s : StratState) (b : Bar) (ma : ℚ)
    (hlow : 0 < b.low) (h : PosPricePos s) : PosPricePos (buyPhase cfg s b ma) := by
  rcases buyPhase_cases cfg s b ma with hb | ⟨k, bp, -, -, hhit, -, hb⟩
  · rw [hb]; exact h
  · rw [hb]
    intro p hp
    rw [entryState_position] at hp
    injection hp with hp2
    rw [← hp2]
    show 0 < min bp b.low
    rw [min_eq_low (firstBuildHit_mem hhit).2]
    exact hlow

theorem sellPhase_posPricePos (cfg : Config) (s : StratState) (b : Bar)
    (h : PosPricePos s) : PosPricePos (sellPhase cfg s b) := by
  rcases sellPhase_log_cases cfg s b with ⟨-, hq⟩ | ⟨sig, -, -, hq⟩
  · intro p hp
    rw [hq] at hp
    exact h p hp
  · intro p hp
    rw [hq] at hp
    exact absurd hp (by simp)

theorem stepBar_posPricePos (cfg : Config) (s : StratState) (b : Bar)
    (hlow : 0 < b.low) (h : PosPricePos s) : PosPricePos (stepBar cfg s b) := by
  have h0 : PosPricePos (dailyUpdate cfg s b) := by
    intro p hp
    rw [dailyUpdate_position] at hp
    exact h p hp
  have h1 := buyPhase_posPricePos cfg (dailyUpdate cfg s b) b
    (maCompute (dailyUpdate cfg s b) b) hlow h0
  have h2 := sellPhase_posPricePos cfg _ b h1
  intro p hp
  rw [stepBar] at hp
  exact h2 p hp

theorem stepBarChecked_eq (cfg : Config) (s : StratState) (b : Bar)
    (hlow : 0 < b.low) (hpos : PosPricePos s) :
    stepBarChecked cfg s b = some (stepBar cfg s b) := by
  have h0 : PosPricePos (dailyUpdate cfg s b) := by
    intro p hp
    rw [dailyUpdate_position] at hp
    exact hpos p hp
  have h1 := buyPhase_posPricePos cfg (dailyUpdate cfg s b) b
    (maCompute (dailyUpdate cfg s b) b) hlow h0
  rw [stepBarChecked, stepBar]
  rw [buyPhaseChecked_eq cfg _ b _ (ne_of_gt hlow), Option.some_bind]
  rw [sellPhaseChecked_eq cfg _ b h1, Option.map_some']

theorem runListChecked_eq (cfg : Config) :
    ∀ l s, (∀ b ∈ l, wellFormedBar b) → PosPricePos s →
      runListChecked cfg l s = some (l.foldl (stepBar cfg) s)
  | [], s, _, _ => by rw [runListChecked, List.foldl_nil]
  | b :: rest, s, hwf, hpos => by
    rw [runListChecked, List.foldl_cons]
    rw [stepBarChecked_eq cfg s b (hwf b (List.mem_cons_self b rest)).2.2.2 hpos,
      Option.some_bind]
    exact runListChecked_eq cfg rest (stepBar cfg s b)
      (fun b2 hb2 => hwf b2 (List.mem_cons_of_mem b hb2))
      (stepBar_posPricePos cfg s b (hwf b (List.mem_cons_self b rest)).2.2.2 hpos)

/-- C9: over well-formed bars (positive prices) a bar's evaluation is
total: the run with every division checked (failing, like Python's `/`,
on a zero divisor) never fails and agrees with the unchecked run - in
particular the sizing division by the fill price and the
profit-percentage divisions by the entry price never divide by zero. -/
theorem c9_no_division_by_zero (cfg : Config) (bars : List Bar)
    (hwf : ∀ b ∈ bars, wellFormedBar b) :
    runBacktestChecked cfg bars = some (runBacktest cfg bars) := by
  rw [runBacktestChecked, runBacktest]
  refine runListChecked_eq cfg bars (initState cfg) hwf ?_
  intro p hp
  exact absurd hp (by simp [initState])

/-- Witness for C9 on the two-bar stream. -/
theorem c9_no_division_by_zero_witness :
    (∀ b ∈ barsTwoDays, wellFormedBar b) ∧
    runBacktestChecked defaultConfig barsTwoDays =
      some (runBacktest defaultConfig barsTwoDays) := by
  have hwf : ∀ b ∈ barsTwoDays, wellFormedBar b := by
    intro b hb
    rcases List.mem_cons.mp hb with rfl | hb
    · norm_num [wellFormedBar, bDay0]
    · rcases List.mem_cons.mp hb with rfl | hb
      · norm_num [wellFormedBar, bDay1]
      · exact absurd hb (List.not_mem_nil b)
  exact ⟨hwf, c9_no_division_by_zero defaultConfig barsTwoDays hwf⟩
